import Mathlib

/-!
# WiFiCompass: compass card, CMPS14 bus protocol and NMEA sentence

A shallow embedding of `calibration.h` (`MOD360`, `compassCard`, `calcOffsets`,
`resetCompassCard`, `endTransmission`, `writeToCMPS14`, `getCalibration`, `getVersion`,
`disableCalibration`, `calibrationMenu`), `Cmps14.h` (`getBearing`), `webCalibration.h`
(`initCMPSconfig` and the calibration handlers) and `NMEA.hpp` (`HDMmessage`).

Conventions of the embedding:

* C `int` values are `Int`; the model is exact as long as no `int` operation overflows.
  C's `%` truncates toward zero and is `Int.tmod`.
* `float`/`double` values are exact fractions, and every floating-point operation is the exact
  operation followed by rounding to nearest, ties to even, at the precision of its format
  (24 bits for `float`, 53 bits for `double`).
* `compassCard` is a function from index to entry; the array has the 360 indices `0..359`.
* The I2C bus (`Wire`) is a state holding the scripted answers of the device and the trace of the
  calls made so far; `delay` calls are recorded in the same trace.
* The calibration procedures act on a `Board`: the bus and the messages given to `printTerm`.
  A handler is the function from the board to its response body and the board afterwards.
* Strings that the code builds with `sprintf` in a `char` buffer are lists of characters.

The file has the definitions first, then the lemmas, then one section per group of properties.
-/

namespace WiFiCompass

/-! ## Integer helpers -/

/-- The macro `#define MOD360(x) (((x)%360 + 360) % 360)`, with C's truncating `%`. -/
def MOD360 (x : Int) : Int := (x.tmod 360 + 360).tmod 360

/-- Conversion of an `int` to `int16_t` (two's complement wrap-around). -/
def toInt16 (x : Int) : Int := (x + 32768) % 65536 - 32768

/-! ## Floating point -/

/-- An exact fraction `num / den`, not necessarily in lowest terms.  Finite floating-point values
are the fractions whose denominator is a power of two. -/
structure Frac where
  num : Int
  den : Nat
  deriving DecidableEq, Repr

namespace Frac

/-- Exact difference of two fractions. -/
def sub (a b : Frac) : Frac := ⟨a.num * b.den - b.num * a.den, a.den * b.den⟩

/-- Exact product of two fractions. -/
def mul (a b : Frac) : Frac := ⟨a.num * b.num, a.den * b.den⟩

/-- The rational value of a fraction. -/
def val (f : Frac) : ℚ := (f.num : ℚ) / (f.den : ℚ)

end Frac

/-- Nearest integer to `a / b`, a tie going to the even neighbour. -/
def divNearestEven (a b : Nat) : Nat :=
  let q := a / b
  let r := a % b
  if 2 * r < b then q else if b < 2 * r then q + 1 else if q % 2 = 0 then q else q + 1

/-- Binary logarithm of `n` rounded down (`0` for `n = 0`), by repeated halving; `fuel` bounds
the number of halvings. -/
def log2Aux : Nat → Nat → Nat
  | 0, _ => 0
  | fuel + 1, n => if n < 2 then 0 else log2Aux fuel (n / 2) + 1

/-- Binary logarithm of `n` rounded down. -/
def log2 (n : Nat) : Nat := log2Aux n n

/-- The integer `k` with `2 ^ k ≤ a / b < 2 ^ (k + 1)`, for positive `a` and `b`. -/
def floorLog2 (a b : Nat) : Int :=
  let k : Int := (log2 a : Int) - (log2 b : Int)
  if b * 2 ^ k.toNat ≤ a * 2 ^ (-k).toNat then k else k - 1

/-- Rounding of an exact value to a binary floating-point format with `prec` significant bits
whose smallest subnormal is `2 ^ emin`: round to nearest, ties to even.  Overflow to infinity
is not modelled (no value computed by `calcOffsets` comes near the largest finite value). -/
def fpRound (prec : Nat) (emin : Int) (x : Frac) : Frac :=
  if x.num = 0 then ⟨0, 1⟩ else
    let a := x.num.natAbs
    let e : Int := max (floorLog2 a x.den - ((prec : Int) - 1)) emin
    let m : Int := divNearestEven (a * 2 ^ (-e).toNat) (x.den * 2 ^ e.toNat)
    ⟨x.num.sign * m * 2 ^ e.toNat, 2 ^ (-e).toNat⟩

/-- Rounding to IEEE 754 binary32, the C type `float`. -/
def toFloat (x : Frac) : Frac := fpRound 24 (-149) x

/-- Rounding to IEEE 754 binary64, the C type `double`. -/
def toDouble (x : Frac) : Frac := fpRound 53 (-1074) x

/-- C `round`: nearest integer, a tie going away from zero. -/
def round (x : Frac) : Int :=
  if 0 ≤ x.num then ((2 * x.num.natAbs + x.den) / (2 * x.den) : Nat)
  else -((2 * x.num.natAbs + x.den) / (2 * x.den) : Nat)

/-- The statement `delta = (Qsize / 90.0)-1;` of `calcOffsets`: `Qsize / 90.0` and the
subtraction are `double` operations, and the result is stored in the `float delta`. -/
def delta (Qsize : Nat) : Frac :=
  toFloat (toDouble (Frac.sub (toDouble ⟨Qsize, 90⟩) ⟨1, 1⟩))

/-- The expression `(int)round(i*delta)` of `calcOffsets`: `i` is converted to `float`
(exactly, as `i < 360`) and the product is a `float` multiplication. -/
def roundTimes (i : Nat) (d : Frac) : Int := round (toFloat (Frac.mul ⟨i, 1⟩ d))

/-! ## The compass card -/

/-- The array `int16_t compassCard[360]`, as the function from an index to its entry.  Only the
indices `0..359` belong to the array. -/
abbrev Card := Int → Int

/-- The zero-initialised global `compassCard` at program start. -/
def initialCard : Card := fun _ => 0

/-- One of the four `for (int i=0;i<Qsize;i++)` loops of `calcOffsets`: the quadrant starts at
the raw reading `first`, and `base` is `first` minus the quadrant's true heading
(`north`, `east-90`, `south-180`, `west-270`). -/
def fillQuadrant (first base : Int) (Qsize : Nat) (compassCard : Card) : Card :=
  (List.range Qsize).foldl
    (fun card (i : Nat) =>
      Function.update card (MOD360 (first + i))
        (toInt16 (MOD360 (base + roundTimes i (delta Qsize)))))
    compassCard

/-- The procedure `calcOffsets(north, east, south, west)`, as a transformer of `compassCard`. -/
def calcOffsets (north east south west : Int) (compassCard : Card) : Card :=
  let card := fillQuadrant north north (MOD360 (east - north)).toNat compassCard
  let card := fillQuadrant east (east - 90) (MOD360 (south - east)).toNat card
  let card := fillQuadrant south (south - 180) (MOD360 (west - south)).toNat card
  fillQuadrant west (west - 270) (MOD360 (north - west)).toNat card

/-- The procedure `resetCompassCard()`: `for(int i=0; i<360; i++) compassCard[i] = 0;`. -/
def resetCompassCard (compassCard : Card) : Card :=
  (List.range 360).foldl (fun card (i : Nat) => Function.update card (i : Int) 0) compassCard

/-! ## The assignments of `calcOffsets`, in program order -/

/-- Replays a list of assignments `compassCard[index] = value`, first to last. -/
def writeAll (ws : List (Int × Int)) (compassCard : Card) : Card :=
  ws.foldl (fun card w => Function.update card w.1 w.2) compassCard

/-- The assignments `(index, value)` made by one quadrant loop of `calcOffsets`, in order. -/
def quadrantWrites (first base : Int) (Qsize : Nat) : List (Int × Int) :=
  (List.range Qsize).map fun (i : Nat) =>
    (MOD360 (first + i), toInt16 (MOD360 (base + roundTimes i (delta Qsize))))

/-- The assignments `(index, value)` made by `calcOffsets(north, east, south, west)`, in order. -/
def calcOffsetsWrites (north east south west : Int) : List (Int × Int) :=
  quadrantWrites north north (MOD360 (east - north)).toNat ++
  quadrantWrites east (east - 90) (MOD360 (south - east)).toNat ++
  quadrantWrites south (south - 180) (MOD360 (west - south)).toNat ++
  quadrantWrites west (west - 270) (MOD360 (north - west)).toNat

/-- The indices written by one quadrant loop: `MOD360(first+i)` for `0 ≤ i < Qsize`. -/
def quadrantIndices (first : Int) (Qsize : Nat) : List Int :=
  (List.range Qsize).map fun (i : Nat) => MOD360 (first + i)

/-- The readings are in strictly increasing circular order: each quadrant size is positive and
the four sizes sum to 360. -/
def InCircularOrder (n e s w : Int) : Prop :=
  0 < MOD360 (e - n) ∧ 0 < MOD360 (s - e) ∧ 0 < MOD360 (w - s) ∧ 0 < MOD360 (n - w) ∧
    MOD360 (e - n) + MOD360 (s - e) + MOD360 (w - s) + MOD360 (n - w) = 360

instance (n e s w : Int) : Decidable (InCircularOrder n e s w) := by
  unfold InCircularOrder; infer_instance

/-- The invariant of the compass card: every entry is in `[0,360)`. -/
def CardInRange (compassCard : Card) : Prop :=
  ∀ j : Int, 0 ≤ j → j < 360 → 0 ≤ compassCard j ∧ compassCard j < 360

/-- Modelled from the spec: the lookup `apply(rawHeading)`, "returns `table[rawHeading mod 360]`";
the source files at hand build and reset `compassCard` but never read it back to correct a
heading. -/
def apply (compassCard : Card) (rawHeading : Int) : Int := compassCard (rawHeading % 360)

/-- The slope of the specification, `delta = quadrantSize / 90.0 − 1.0`, taken exactly. -/
def specDelta (quadrantSize : Nat) : Frac := Frac.sub ⟨quadrantSize, 90⟩ ⟨1, 1⟩

/-- The entry of the specification, `((base + round(i * delta)) mod 360 + 360) mod 360`, with
`i * delta` taken exactly and `round` rounding a tie away from zero. -/
def specEntry (base : Int) (quadrantSize i : Nat) : Int :=
  ((base + round (Frac.mul ⟨i, 1⟩ (specDelta quadrantSize))) % 360 + 360) % 360

/-! ## The I2C bus and `getBearing` -/

/-- A call on the bus object `Wire`, or a `delay`. -/
inductive BusCall where
  | beginTransmission (address : Nat)
  | write (byte : Nat)
  | endTransmission
  | requestFrom (address quantity : Nat)
  | read
  | delay (ms : Nat)
  deriving DecidableEq, Repr

/-- The bus: the scripted behaviour of the device and the calls made so far.
`acks` holds the results of the coming `endTransmission` calls (`0` is an acknowledge, and so is
an exhausted script), `replies` the bytes the device returns to the coming `requestFrom` calls,
`rx` the bytes received and not yet read. -/
structure Wire where
  acks : List Int
  replies : List (List Nat)
  rx : List Nat
  trace : List BusCall
  deriving DecidableEq, Repr

namespace Wire

/-- The call `Wire.beginTransmission(address)`. -/
def beginTransmission (w : Wire) (address : Nat) : Wire :=
  { w with trace := w.trace ++ [BusCall.beginTransmission address] }

/-- The call `Wire.write(byte)`. -/
def write (w : Wire) (byte : Nat) : Wire :=
  { w with trace := w.trace ++ [BusCall.write byte] }

/-- The call `Wire.endTransmission()`: returns the result code of the transmission. -/
def endTransmission (w : Wire) : Int × Wire :=
  (w.acks.headD 0, { w with acks := w.acks.tail, trace := w.trace ++ [BusCall.endTransmission] })

/-- The call `Wire.requestFrom(address, quantity)`: returns the number of bytes received, and
the bytes of the device's reply become the receive buffer. -/
def requestFrom (w : Wire) (address quantity : Nat) : Int × Wire :=
  ((w.replies.headD []).length,
    { w with replies := w.replies.tail, rx := w.replies.headD [],
             trace := w.trace ++ [BusCall.requestFrom address quantity] })

/-- The call `Wire.read()`: the next received byte, or `-1` when there is none. -/
def read (w : Wire) : Int × Wire :=
  match w.rx with
  | [] => (-1, { w with trace := w.trace ++ [BusCall.read] })
  | b :: rest => (b, { w with rx := rest, trace := w.trace ++ [BusCall.read] })

end Wire

/-- The macro `#define CMPS14_I2C_ADDRESS 0x60`. -/
def CMPS14_I2C_ADDRESS : Nat := 0x60

/-- The macro `#define BEARING_Register 2`. -/
def BEARING_Register : Nat := 2

/-- The macro `#define TWO_BYTES 2`. -/
def TWO_BYTES : Nat := 2

/-- Conversion of an `int` to `byte` (`unsigned char`). -/
def toByte (x : Int) : Int := x % 256

/-- The function `int16_t getBearing()`: the value returned and the bus afterwards. -/
def getBearing (w : Wire) : Int × Wire :=
  let w := w.beginTransmission CMPS14_I2C_ADDRESS
  let w := w.write BEARING_Register
  let (nackCatcher, w) := w.endTransmission
  if nackCatcher ≠ 0 then (0, w)
  else
    let (nReceived, w) := w.requestFrom CMPS14_I2C_ADDRESS TWO_BYTES
    if nReceived ≠ TWO_BYTES then (0, w)
    else
      let (hi, w) := w.read
      let byteHigh := toByte hi
      let (lo, w) := w.read
      let byteLow := toByte lo
      let bearing := (byteHigh * 2 ^ 8 + byteLow).tdiv 10
      (toInt16 bearing, w)

/-- A bus on which the coming register-select write is acknowledged and the coming read
request returns exactly the two bytes `hi`, `lo`. -/
def SuccessfulRead (w : Wire) (hi lo : Nat) : Prop :=
  w.acks.headD 0 = 0 ∧ w.replies.headD [] = [hi, lo] ∧ hi < 256 ∧ lo < 256

instance (w : Wire) (hi lo : Nat) : Decidable (SuccessfulRead w hi lo) := by
  unfold SuccessfulRead; infer_instance

/-! ## The calibration procedures of `calibration.h` and `webCalibration.h` -/

/-- The state the calibration procedures act on: the bus, and the messages handed to
`printTerm` so far (it prints each on the serial port and on the telnet client, whichever is
connected). -/
structure Board where
  wire : Wire
  terminal : List String
  deriving DecidableEq, Repr

namespace Board

/-- The call `Wire.beginTransmission(address)` on the board's bus. -/
def beginTransmission (s : Board) (address : Nat) : Board :=
  { s with wire := s.wire.beginTransmission address }

/-- The call `Wire.write(byte)` on the board's bus. -/
def write (s : Board) (byte : Nat) : Board :=
  { s with wire := s.wire.write byte }

/-- The call `Wire.requestFrom(address, quantity)` on the board's bus. -/
def requestFrom (s : Board) (address quantity : Nat) : Int × Board :=
  ((s.wire.requestFrom address quantity).1, { s with wire := (s.wire.requestFrom address quantity).2 })

/-- The call `Wire.read()` on the board's bus. -/
def read (s : Board) : Int × Board :=
  (s.wire.read.1, { s with wire := s.wire.read.2 })

end Board

/-- The macro `#define _i2cAddress 0x60`. -/
def _i2cAddress : Nat := 0x60

/-- The macro `#define calibrationQuality 0x1E`. -/
def calibrationQuality : Nat := 0x1E

/-- The procedure `printTerm(mesg)`. -/
def printTerm (mesg : String) (s : Board) : Board :=
  { s with terminal := s.terminal ++ [mesg] }

/-- The Arduino call `delay(ms)`, recorded in the trace of the bus. -/
def delay (ms : Nat) (s : Board) : Board :=
  { s with wire := { s.wire with trace := s.wire.trace ++ [BusCall.delay ms] } }

/-- The procedure `endTransmission()` of `calibration.h`: ends the transmission, prints
`communication error` on a negative acknowledge, and waits 100 ms. -/
def endTransmission (s : Board) : Board :=
  let nackCatcher := s.wire.endTransmission.1
  let s := { s with wire := s.wire.endTransmission.2 }
  let s := if nackCatcher ≠ 0 then printTerm "communication error\n" s else s
  delay 100 s

/-- The procedure `writeToCMPS14(n)`: writes the byte `n` to the command register. -/
def writeToCMPS14 (n : Nat) (s : Board) : Board :=
  let s := s.beginTransmission _i2cAddress
  let s := s.write 0x00
  let s := s.write n
  endTransmission s

/-- The characters of `BYTE_TO_BINARY(byte)`, most significant bit first. -/
def BYTE_TO_BINARY (byte : Nat) : String :=
  String.mk ([0x80, 0x40, 0x20, 0x10, 0x08, 0x04, 0x02, 0x01].map
    fun (bit : Nat) => if byte &&& bit ≠ 0 then '1' else '0')

/-- The function `byte getCalibration()`: the byte returned and the board afterwards. -/
def getCalibration (s : Board) : Int × Board :=
  let s := s.beginTransmission _i2cAddress
  let s := delay 20 s
  let s := s.write calibrationQuality
  let s := endTransmission s
  let nReceived := (s.requestFrom _i2cAddress 1).1
  let s := (s.requestFrom _i2cAddress 1).2
  if nReceived ≠ 1 then
    (0, printTerm
      ("calibrationQuality - invalid return from Wire.requestFrom() == " ++ toString nReceived
        ++ "\n") s)
  else (toByte s.read.1, s.read.2)

/-- The procedure `CalibrationQuality()`: prints the calibration byte in binary. -/
def CalibrationQuality (s : Board) : Board :=
  let calibration := (getCalibration s).1
  let s := (getCalibration s).2
  printTerm ("Calibration " ++ BYTE_TO_BINARY calibration.toNat ++ "\n") s

/-- The function `byte getVersion()`: the byte returned and the board afterwards. -/
def getVersion (s : Board) : Int × Board :=
  let s := s.beginTransmission _i2cAddress
  let s := s.write 0x00
  let s := s.write 0x11
  let s := endTransmission s
  let s := (s.requestFrom _i2cAddress 1).2
  (toByte s.read.1, s.read.2)

/-- The procedure `disableCalibration()`. -/
def disableCalibration (s : Board) : Board :=
  let s := writeToCMPS14 0x98 s
  let s := writeToCMPS14 0x95 s
  let s := writeToCMPS14 0x99 s
  let s := s.beginTransmission _i2cAddress
  let s := delay 20 s
  let s := printTerm "Stopping auto calibration\n" s
  let s := s.write 0b10000000
  endTransmission s

/-- The procedure `Countdown(period)`: once a second prints the seconds left. -/
def Countdown : Nat → Board → Board
  | 0, s => printTerm "OK\n" s
  | i + 1, s =>
    let s := printTerm (toString ((i + 1) % 256)) s
    let s := printTerm " " s
    let s := delay 1000 s
    Countdown i s

/-- The procedure `printMenu()`. -/
def printMenu (s : Board) : Board :=
  let s := printTerm "\n" s
  let s := printTerm "Enter command;\n" s
  let s := printTerm " - 'h' to print this menu\n" s
  let s := printTerm " - 'c' to see current calibration levels\n" s
  let s := printTerm " - 'g' to calibrate the gyroscope\n" s
  let s := printTerm " - 'a' to calibrate accelerometer\n" s
  let s := printTerm " - 'm' to calibrate magnetometer\n" s
  let s := printTerm " - 's' to save current CMPS calibration\n" s
  let s := printTerm " - 'e' to erase the saved CMPS calibration\n" s
  let s := printTerm " - 'p' to enable periodic auto-save\n" s
  let s := printTerm " - 'x' to disable periodic auto-save\n" s
  let s := printTerm " - 'b' to generate a boat compass card\n" s
  let s := printTerm " - 'd' to display the compass card\n" s
  let s := printTerm " - 'z' to zero (erase) the compass card\n" s
  let s := printTerm " - 'n' to save compass card to ESP32 Non-volatile memory\n" s
  let s := printTerm " - 'r' to reboot the system\n" s
  let s := printTerm " - 'q' to quit settings mode\n" s
  printTerm "->? " s

/-- The `switch (a)` inside the calibration branch of `calibrationMenu`. -/
def calibrationSwitch (a : Char) (s : Board) : Board :=
  if a = 'm' then
    let s := printTerm "Magnetometer...\n" s
    let s := s.write 0b10000001
    let s := endTransmission s
    let s := printTerm "Rotate the CMPS14 randomly around for 40 seconds\n" s
    let s := Countdown 40 s
    CalibrationQuality s
  else if a = 'a' then
    let s := printTerm "Accelerometer...\n" s
    let s := s.write 0b10000010
    let s := endTransmission s
    let s := printTerm "Rotate in differnt 90 degrees and keep steady for a while\n" s
    let s := Countdown 40 s
    CalibrationQuality s
  else if a = 'g' then
    let s := printTerm "Gyro... Keep the CMPS14 stationary\n" s
    let s := s.write 0b10000100
    let s := endTransmission s
    let s := Countdown 20 s
    CalibrationQuality s
  else if a = 'p' then
    let s := printTerm "Enable periodic automatic save of calibration data\n" s
    let s := s.write 0b10010000
    let s := endTransmission s
    CalibrationQuality s
  else if a = 'x' then
    let s := printTerm "Stop auto calibration\n" s
    let s := s.write 0b10000000
    let s := endTransmission s
    CalibrationQuality s
  else s

/-- One pass of the loop of `calibrationMenu()` on the input character `a`, from
"We have some input" up to and including "End of I2C activities. release the bus"; the
`switch` on the non-I2C commands that follows it is not part of this definition. -/
def calibrationMenu (a : Char) (s : Board) : Board :=
  let s :=
    if a = 'm' ∨ a = 'a' ∨ a = 'g' ∨ a = 'p' ∨ a = 'x' then
      let s := writeToCMPS14 0x98 s
      let s := writeToCMPS14 0x95 s
      let s := writeToCMPS14 0x99 s
      let s := s.beginTransmission _i2cAddress
      let s := s.write 0x00
      let s := calibrationSwitch a s
      printMenu s
    else s
  let s := if a = 'c' then CalibrationQuality s else s
  let s :=
    if a = 's' then
      let s := writeToCMPS14 0xF0 s
      let s := writeToCMPS14 0xF5 s
      let s := writeToCMPS14 0xF6 s
      printTerm "Calibration profile saved\n" s
    else s
  let s :=
    if a = 'e' then
      let s := writeToCMPS14 0xE0 s
      let s := writeToCMPS14 0xE5 s
      let s := writeToCMPS14 0xE2 s
      let s := printTerm "Saved calibration erased, factory defaults apply\n" s
      delay 500 s
    else s
  endTransmission s

/-- The procedure `initCMPSconfig()`: the unlock bytes, then an open transmission to the
command register. -/
def initCMPSconfig (s : Board) : Board :=
  let s := writeToCMPS14 0x98 s
  let s := writeToCMPS14 0x95 s
  let s := writeToCMPS14 0x99 s
  let s := s.beginTransmission _i2cAddress
  s.write 0x00

/-- The JSON body `{ "result":"OK"}` that the calibration handlers print to the response. -/
def resultOK : String := "\x7b \"result\":\"OK\"\x7d"

/-- The handler `handleDisableCalibration`: the response body and the board afterwards.  Of the
handlers the debug line on `Serial` and the response headers are left out. -/
def handleDisableCalibration (s : Board) : String × Board :=
  (resultOK, disableCalibration s)

/-- The handler `handleEnableGyroCalib`. -/
def handleEnableGyroCalib (s : Board) : String × Board :=
  let s := initCMPSconfig s
  let s := s.write 0b10000100
  (resultOK, endTransmission s)

/-- The handler `handleEnableAccelCalib`. -/
def handleEnableAccelCalib (s : Board) : String × Board :=
  let s := initCMPSconfig s
  let s := s.write 0b10000010
  (resultOK, endTransmission s)

/-- The handler `handleEnableMagCalib`. -/
def handleEnableMagCalib (s : Board) : String × Board :=
  let s := initCMPSconfig s
  let s := s.write 0b10000001
  (resultOK, endTransmission s)

/-- The handler `handleResetCalibration`. -/
def handleResetCalibration (s : Board) : String × Board :=
  let s := writeToCMPS14 0xE0 s
  let s := writeToCMPS14 0xE5 s
  let s := writeToCMPS14 0xE2 s
  (resultOK, s)

/-- The handler `handleSaveCalibration`. -/
def handleSaveCalibration (s : Board) : String × Board :=
  let s := writeToCMPS14 0xF0 s
  let s := writeToCMPS14 0xF5 s
  let s := writeToCMPS14 0xF6 s
  (resultOK, s)

/-- The four 2-bit fields that `handleGetCalStatus` takes from the calibration byte:
`sys`, `gyro`, `accel`, `mag`. -/
def calStatusFields (calStatus : Nat) : Nat × Nat × Nat × Nat :=
  let sys := (calStatus &&& 0b11000000) >>> 6
  let gyro := (calStatus &&& 0b00110000) >>> 4
  let accel := (calStatus &&& 0b00001100) >>> 2
  let mag := calStatus &&& 0b00000011
  (sys, gyro, accel, mag)

/-- The handler `handleGetCalStatus`: the JSON body and the board afterwards. -/
def handleGetCalStatus (s : Board) : String × Board :=
  let calStatus := (getCalibration s).1
  let s := (getCalibration s).2
  let (sys, gyro, accel, mag) := calStatusFields calStatus.toNat
  ("\x7b\"sysStatus\":\"" ++ toString sys ++ "\",\"gyroStatus\":\"" ++ toString gyro
    ++ "\",\"accelStatus\":\"" ++ toString accel ++ "\",\"magStatus\":\"" ++ toString mag
    ++ "\"\x7d", s)

/-! ## Observations on the trace of the bus -/

/-- The transmissions of a list of calls: for each `beginTransmission` that is ended by an
`endTransmission`, the address and the bytes written in between.  The first argument is the
transmission in progress; an `endTransmission` with none in progress has no bytes to send. -/
def transmissionsFrom : Option (Nat × List Nat) → List BusCall → List (Nat × List Nat)
  | _, [] => []
  | _, BusCall.beginTransmission a :: rest => transmissionsFrom (some (a, [])) rest
  | some (a, bs), BusCall.write b :: rest => transmissionsFrom (some (a, bs ++ [b])) rest
  | none, BusCall.write _ :: rest => transmissionsFrom none rest
  | some t, BusCall.endTransmission :: rest => t :: transmissionsFrom none rest
  | none, BusCall.endTransmission :: rest => transmissionsFrom none rest
  | t, BusCall.requestFrom _ _ :: rest => transmissionsFrom t rest
  | t, BusCall.read :: rest => transmissionsFrom t rest
  | t, BusCall.delay _ :: rest => transmissionsFrom t rest

/-- The transmissions of a list of calls that starts with no transmission in progress. -/
def transmissions (calls : List BusCall) : List (Nat × List Nat) :=
  transmissionsFrom none calls

/-- Every `endTransmission` in the list of calls is immediately followed by `delay(100)`. -/
def settled : List BusCall → Bool
  | [] => true
  | BusCall.endTransmission :: BusCall.delay ms :: rest => ms == 100 && settled rest
  | BusCall.endTransmission :: _ => false
  | _ :: rest => settled rest

/-- The circular distance, in degrees, between two headings. -/
def circDist (a b : Int) : Int := min (MOD360 (a - b)) (MOD360 (b - a))

/-! ## The NMEA sentences of `NMEA.hpp` -/

/-- The constant `const char* sourceID = "HC"`. -/
def sourceID : List Char := ['H', 'C']

/-- Left padding with `'0'` to a minimum width. -/
def zeroPad (width : Nat) (digits : List Char) : List Char :=
  List.replicate (width - digits.length) '0' ++ digits

/-- The `sprintf` conversion `%03d`. -/
def format03d (n : Int) : List Char :=
  if n < 0 then '-' :: zeroPad 2 (Nat.toDigits 10 n.natAbs)
  else zeroPad 3 (Nat.toDigits 10 n.toNat)

/-- The `sprintf` conversion `%02x`. -/
def format02x (n : Nat) : List Char := zeroPad 2 (Nat.toDigits 16 n)

/-- The XOR of the character codes of a list of characters. -/
def xorAll (cs : List Char) : Nat := cs.foldl (fun sum c => sum ^^^ c.toNat) 0

/-- The method `NMEAmessage::addCheckSum()`: XORs the characters after the first and appends
`*` and the sum as two hexadecimal digits. -/
def addCheckSum (msgString : List Char) : List Char :=
  let checkSum := xorAll (msgString.drop 1)
  msgString ++ '*' :: format02x checkSum

/-- The constructor `HDMmessage(heading)`: the `msgString` of the new message. -/
def HDMmessage (heading : Int) : List Char :=
  addCheckSum ('$' :: sourceID ++ ['H', 'D', 'M', ','] ++ format03d heading ++ [',', 'M'])

/-- The method `HDMmessage::update(heading)`: the new `msgString`, given the old one. -/
def HDMmessage.update (heading : Int) (_msgString : List Char) : List Char :=
  addCheckSum ('$' :: sourceID ++ ['H', 'D', 'M', ','] ++ format03d heading ++ [',', 'M'])

/-! ## Descriptions used in the statements about the bus and the sentences -/

/-- The message that `endTransmission()` prints for a result code: `communication error` for a
negative acknowledge, nothing otherwise. -/
def nackMessage (result : Int) : List String :=
  if result ≠ 0 then ["communication error\n"] else []

/-- The bus calls that write the three bytes `a`, `b`, `c` to the command register `0x00`, one
transmission each, every one followed by the 100 ms delay. -/
def threeWrites (a b c : Nat) : List BusCall :=
  [BusCall.beginTransmission 0x60, BusCall.write 0x00, BusCall.write a,
    BusCall.endTransmission, BusCall.delay 100,
    BusCall.beginTransmission 0x60, BusCall.write 0x00, BusCall.write b,
    BusCall.endTransmission, BusCall.delay 100,
    BusCall.beginTransmission 0x60, BusCall.write 0x00, BusCall.write c,
    BusCall.endTransmission, BusCall.delay 100]

/-- The bus calls of one transmission that writes `selector` to the command register `0x00`. -/
def selectorWrite (selector : Nat) : List BusCall :=
  [BusCall.beginTransmission 0x60, BusCall.write 0x00, BusCall.write selector,
    BusCall.endTransmission, BusCall.delay 100]

/-- The bus calls of `getCalibration()` when the device answers the read request with `reply`:
the byte is read only when exactly one byte came. -/
def getCalibrationCalls (reply : List Nat) : List BusCall :=
  [BusCall.beginTransmission 0x60, BusCall.delay 20, BusCall.write 0x1E,
    BusCall.endTransmission, BusCall.delay 100, BusCall.requestFrom 0x60 1] ++
  (if reply.length = 1 then [BusCall.read] else [])

/-- The number of times the four quadrants of `calcOffsets` go round the card: the sum of the
four quadrant sizes divided by 360. -/
def windings (n e s w : Int) : Nat :=
  ((MOD360 (e - n)).toNat + (MOD360 (s - e)).toNat + (MOD360 (w - s)).toNat +
    (MOD360 (n - w)).toNat) / 360

/-- The decimal digit character of `d`. -/
def digitChar (d : Nat) : Char := Char.ofNat (48 + d)

/-- The hexadecimal digits that `%x` prints. -/
def hexDigits : List Char := "0123456789abcdef".toList

/-- The number that a list of hexadecimal digits denotes. -/
def hexNumber (cs : List Char) : Nat := cs.foldl (fun v c => 16 * v + hexDigits.indexOf c) 0

/-- The characters of a sentence strictly between its first character `$` and the first `*`. -/
def checkedChars (msgString : List Char) : List Char :=
  (msgString.drop 1).takeWhile (fun c => c != '*')

/-- The sentence `$HCHDM,ddd,M*hh` for a heading in `0..359`: `ddd` is the heading as three
zero-padded decimal digits and `hh` (the characters from position 13 on) are exactly two
hexadecimal digits whose value is the XOR of the characters strictly between `$` and `*`, so
that XOR-ing those characters with that value gives `0`; the sentence has 15 characters. -/
def IsHDMSentence (heading : Nat) (msgString : List Char) : Prop :=
  msgString = ['$', 'H', 'C', 'H', 'D', 'M', ','] ++
      [digitChar (heading / 100), digitChar (heading / 10 % 10), digitChar (heading % 10)] ++
      [',', 'M', '*'] ++ msgString.drop 13 ∧
    (msgString.drop 13).length = 2 ∧
    (∀ c ∈ msgString.drop 13, c ∈ hexDigits) ∧
    hexNumber (msgString.drop 13) = xorAll (checkedChars msgString) ∧
    xorAll (checkedChars msgString) ^^^ hexNumber (msgString.drop 13) = 0 ∧
    msgString.length = 15

instance (heading : Nat) (msgString : List Char) :
    Decidable (IsHDMSentence heading msgString) := by
  unfold IsHDMSentence; infer_instance

/-! ## The function `htmlEncode` of `webCalibration.h` -/

/-- The terminating character of a C string, `'\0'`. -/
def NUL : Char := Char.ofNat 0

/-- The double quote character `"`. -/
def quoteChar : Char := Char.ofNat 34

/-- The single quote character. -/
def aposChar : Char := Char.ofNat 39

/-- The `switch (escapeChar)` of `htmlEncode`: the characters appended to `rv` for one character
of the input. -/
def escape (escapeChar : Char) : List Char :=
  if escapeChar = '&' then "&amp;".toList
  else if escapeChar = '<' then "&lt;".toList
  else if escapeChar = '>' then "&gt;".toList
  else if escapeChar = quoteChar then "&quot;".toList
  else if escapeChar = aposChar then "&#x27;".toList
  else if escapeChar = '/' then "&#x2F;".toList
  else [escapeChar]

/-- The function `htmlEncode(data)`, on the characters of `data`: the loop `while (p && *p)`
walks `data.c_str()` and so stops at the first `'\0'`. -/
def htmlEncode : List Char → List Char
  | [] => []
  | escapeChar :: rest => if escapeChar = NUL then [] else escape escapeChar ++ htmlEncode rest

/-- The six characters that `htmlEncode` replaces. -/
def specialChars : List Char := ['&', '<', '>', quoteChar, aposChar, '/']

/-- The six entities that `htmlEncode` writes. -/
def entities : List (List Char) :=
  ["&amp;".toList, "&lt;".toList, "&gt;".toList, "&quot;".toList, "&#x27;".toList,
    "&#x2F;".toList]

/-- Every `&` of the text starts one of the six entities: at each position that holds `&`, the
characters from that position on begin with an entity. -/
def AmpersandsStartEntities (text : List Char) : Prop :=
  ∀ i : Nat, text[i]? = some '&' → ∃ e ∈ entities, (text.drop i).take e.length = e

/-! ## Lemmas -/

theorem tmod_360_of_neg (x : Int) (h : x < 0) : x.tmod 360 = -((-x) % 360) := by
  obtain ⟨m, rfl⟩ := Int.eq_negSucc_of_lt_zero h
  have h1 : (Int.negSucc m).tmod 360 = -(((m + 1) % 360 : Nat) : Int) := rfl
  rw [h1, Int.negSucc_eq]
  omega

theorem MOD360_eq_emod (x : Int) : MOD360 x = x % 360 := by
  unfold MOD360
  rcases le_or_lt 0 x with h | h
  · rw [Int.tmod_eq_emod h (by decide), Int.tmod_eq_emod (by omega) (by decide)]
    omega
  · rw [tmod_360_of_neg x h, Int.tmod_eq_emod (by omega) (by decide)]
    omega

theorem MOD360_nonneg (x : Int) : 0 ≤ MOD360 x := by
  rw [ MOD360_eq_emod]; omega

theorem MOD360_lt (x : Int) : MOD360 x < 360 := by
  rw [ MOD360_eq_emod]; omega

theorem toInt16_MOD360 (x : Int) : toInt16 (MOD360 x) = MOD360 x := by
  have h0 := MOD360_nonneg x
  have h1 := MOD360_lt x
  unfold toInt16
  omega

theorem writeAll_nil (card : Card) : writeAll [] card = card := rfl

theorem writeAll_append (ws vs : List (Int × Int)) (card : Card) :
    writeAll (ws ++ vs) card = writeAll vs (writeAll ws card) := by
  simp [writeAll, List.foldl_append]

theorem writeAll_concat (ws : List (Int × Int)) (w : Int × Int) (card : Card) :
    writeAll (ws ++ [w]) card = Function.update (writeAll ws card) w.1 w.2 := by
  simp [writeAll, List.foldl_append]

/-- An index that no assignment names keeps its entry. -/
theorem writeAll_of_not_mem (ws : List (Int × Int)) (card : Card) (j : Int)
    (hj : j ∉ ws.map Prod.fst) : writeAll ws card j = card j := by
  induction ws using List.reverseRecOn with
  | nil => rfl
  | append_singleton ws w ih =>
    simp only [List.map_append, List.map_cons, List.map_nil, List.mem_append,
      List.mem_singleton, not_or] at hj
    rw [writeAll_concat, Function.update_noteq hj.2, ih hj.1]

/-- An index that some assignment names holds the value of one of the assignments to it. -/
theorem writeAll_of_mem (ws : List (Int × Int)) (card : Card) (j : Int)
    (hj : j ∈ ws.map Prod.fst) : (j, writeAll ws card j) ∈ ws := by
  induction ws using List.reverseRecOn with
  | nil => simp at hj
  | append_singleton ws w ih =>
    rw [writeAll_concat]
    by_cases hw : j = w.1
    · subst hw
      simp
    · rw [Function.update_noteq hw]
      simp only [List.map_append, List.map_cons, List.map_nil, List.mem_append,
        List.mem_singleton] at hj
      rcases hj with hj | hj
      · exact List.mem_append_left _ (ih hj)
      · exact absurd hj hw

/-- If an index is assigned exactly once, the value of that assignment is its entry. -/
theorem writeAll_of_count_eq_one (ws : List (Int × Int)) (card : Card) (j v : Int)
    (hc : (ws.map Prod.fst).count j = 1) (hv : (j, v) ∈ ws) : writeAll ws card j = v := by
  induction ws using List.reverseRecOn with
  | nil => simp at hv
  | append_singleton ws w ih =>
    rw [writeAll_concat]
    simp only [List.map_append, List.map_cons, List.map_nil, List.count_append,
      List.count_singleton] at hc
    simp only [List.mem_append, List.mem_singleton] at hv
    by_cases hw : w.1 = j
    · have hw2 : (w.1 == j) = true := by simp [hw]
      rw [hw2] at hc
      have h0 : (ws.map Prod.fst).count j = 0 := by simpa using hc
      have hnot : (j, v) ∉ ws := fun hin =>
        List.count_eq_zero.mp h0 (List.mem_map.mpr ⟨(j, v), hin, rfl⟩)
      rcases hv with hv | hv
      · exact absurd hv hnot
      · subst hv
        simp
    · have hw2 : (w.1 == j) = false := by simp [hw]
      rw [hw2] at hc
      have hin : (j, v) ∈ ws := by
        rcases hv with hv | hv
        · exact hv
        · exact absurd (by rw [← hv]) hw
      rw [Function.update_noteq (fun hj => hw hj.symm)]
      exact ih (by simpa using hc) hin

theorem fillQuadrant_eq_writeAll (first base : Int) (Qsize : Nat) (card : Card) :
    fillQuadrant first base Qsize card = writeAll (quadrantWrites first base Qsize) card := by
  simp [fillQuadrant, writeAll, quadrantWrites, List.foldl_map]

/-- Running `calcOffsets` is replaying its assignments. -/
theorem calcOffsets_eq_writeAll (n e s w : Int) (card : Card) :
    calcOffsets n e s w card = writeAll (calcOffsetsWrites n e s w) card := by
  simp [calcOffsets, calcOffsetsWrites, fillQuadrant_eq_writeAll, writeAll_append]

theorem quadrantWrites_fst (first base : Int) (Qsize : Nat) :
    (quadrantWrites first base Qsize).map Prod.fst = quadrantIndices first Qsize := by
  simp [quadrantWrites, quadrantIndices, Function.comp_def]

theorem calcOffsetsWrites_fst (n e s w : Int) :
    (calcOffsetsWrites n e s w).map Prod.fst =
      quadrantIndices n (MOD360 (e - n)).toNat ++ quadrantIndices e (MOD360 (s - e)).toNat ++
      quadrantIndices s (MOD360 (w - s)).toNat ++ quadrantIndices w (MOD360 (n - w)).toNat := by
  simp [calcOffsetsWrites, quadrantWrites_fst]

theorem mem_quadrantIndices (first : Int) (Q : Nat) (hQ : Q ≤ 360) (j : Int) :
    j ∈ quadrantIndices first Q ↔ 0 ≤ j ∧ j < 360 ∧ (j - first) % 360 < Q := by
  simp only [quadrantIndices, List.mem_map, List.mem_range, MOD360_eq_emod]
  constructor
  · rintro ⟨i, hi, rfl⟩
    omega
  · rintro ⟨h0, h1, h2⟩
    refine ⟨((j - first) % 360).toNat, by omega, by omega⟩

theorem count_quadrantIndices (first : Int) (Q : Nat) (hQ : Q ≤ 360) (j : Int) :
    (quadrantIndices first Q).count j =
      if 0 ≤ j ∧ j < 360 ∧ (j - first) % 360 < Q then 1 else 0 := by
  induction Q with
  | zero =>
    have h : ¬ (0 ≤ j ∧ j < 360 ∧ (j - first) % 360 < ((0 : Nat) : Int)) := by omega
    rw [if_neg h]
    rfl
  | succ Q ih =>
    have ih2 := ih (by omega)
    unfold quadrantIndices at ih2 ⊢
    rw [List.range_succ, List.map_append, List.count_append, ih2]
    simp only [List.map_cons, List.map_nil, List.count_singleton, MOD360_eq_emod, beq_iff_eq]
    split_ifs <;> omega

theorem quadrantSize_le (x : Int) : (MOD360 x).toNat ≤ 360 := by
  have h1 := MOD360_lt x
  omega

theorem count_calcOffsetsWrites (n e s w : Int) (h : InCircularOrder n e s w) (j : Int)
    (hj0 : 0 ≤ j) (hj1 : j < 360) : ((calcOffsetsWrites n e s w).map Prod.fst).count j = 1 := by
  obtain ⟨h1, h2, h3, h4, h5⟩ := h
  rw [ MOD360_eq_emod] at h1 h2 h3 h4
  simp only [ MOD360_eq_emod] at h5
  rw [calcOffsetsWrites_fst, List.count_append, List.count_append, List.count_append,
    count_quadrantIndices n _ (quadrantSize_le _), count_quadrantIndices e _ (quadrantSize_le _),
    count_quadrantIndices s _ (quadrantSize_le _), count_quadrantIndices w _ (quadrantSize_le _)]
  simp only [ MOD360_eq_emod]
  split_ifs <;> omega

theorem mem_calcOffsetsWrites_bounds (n e s w j v : Int)
    (hv : (j, v) ∈ calcOffsetsWrites n e s w) : 0 ≤ j ∧ j < 360 ∧ 0 ≤ v ∧ v < 360 := by
  simp only [calcOffsetsWrites, quadrantWrites, List.mem_append, List.mem_map, List.mem_range,
    Prod.mk.injEq, toInt16_MOD360] at hv
  rcases hv with ((⟨i, -, rfl, rfl⟩ | ⟨i, -, rfl, rfl⟩) | ⟨i, -, rfl, rfl⟩) | ⟨i, -, rfl, rfl⟩ <;>
    exact ⟨MOD360_nonneg _, MOD360_lt _, MOD360_nonneg _, MOD360_lt _⟩

/-- In circular order no assignment of `calcOffsets` is overwritten by a later one. -/
theorem calcOffsets_of_mem (n e s w : Int) (h : InCircularOrder n e s w) (card : Card)
    (j v : Int) (hv : (j, v) ∈ calcOffsetsWrites n e s w) : calcOffsets n e s w card j = v := by
  obtain ⟨hj0, hj1, -, -⟩ := mem_calcOffsetsWrites_bounds n e s w j v hv
  rw [calcOffsets_eq_writeAll]
  exact writeAll_of_count_eq_one _ card j v (count_calcOffsetsWrites n e s w h j hj0 hj1) hv

theorem mem_quadrantWrites (first base : Int) (Qsize i : Nat) (hi : i < Qsize) :
    (MOD360 (first + i), MOD360 (base + roundTimes i (delta Qsize))) ∈
      quadrantWrites first base Qsize := by
  simp only [quadrantWrites, List.mem_map, List.mem_range]
  exact ⟨i, hi, by rw [toInt16_MOD360]⟩

/-- With `delta = 0` (a quadrant exactly 90 wide) every rounded product is `0`. -/
theorem roundTimes_delta_90 (i : Nat) : roundTimes i (delta 90) = 0 := by
  have hd : delta 90 = ⟨0, 1⟩ := by decide
  simp [hd, roundTimes, Frac.mul, toFloat, fpRound, round]

theorem calcOffsets_unwritten (n e s w : Int) (card : Card) (j : Int)
    (hj : j ∉ (calcOffsetsWrites n e s w).map Prod.fst) : calcOffsets n e s w card j = card j := by
  rw [calcOffsets_eq_writeAll]
  exact writeAll_of_not_mem _ card j hj

theorem calcOffsets_same (x : Int) (card : Card) : calcOffsets x x x x card = card := by
  have h0 : (MOD360 (x - x)).toNat = 0 := by
    rw [sub_self]; decide
  unfold calcOffsets
  simp only [h0]
  rfl

theorem resetCompassCard_eq_writeAll (card : Card) :
    resetCompassCard card =
      writeAll ((List.range 360).map fun (i : Nat) => ((i : Int), (0 : Int))) card := by
  simp [resetCompassCard, writeAll, List.foldl_map]

theorem resetCompassCard_entry (card : Card) (j : Int) (hj0 : 0 ≤ j) (hj1 : j < 360) :
    resetCompassCard card j = 0 := by
  rw [resetCompassCard_eq_writeAll]
  have hmem : j ∈ ((List.range 360).map fun (i : Nat) => ((i : Int), (0 : Int))).map Prod.fst := by
    simp only [List.map_map, List.mem_map, List.mem_range, Function.comp_def]
    exact ⟨j.toNat, by omega, by omega⟩
  have h := writeAll_of_mem _ card j hmem
  simp only [List.mem_map, List.mem_range, Prod.mk.injEq] at h
  obtain ⟨i, -, -, h2⟩ := h
  exact h2.symm

theorem calcOffsets_quadrant1 (n e s w : Int) (h : InCircularOrder n e s w) (card : Card)
    (i : Nat) (hi : i < (MOD360 (e - n)).toNat) :
    calcOffsets n e s w card (MOD360 (n + i)) =
      MOD360 (n + roundTimes i (delta (MOD360 (e - n)).toNat)) := by
  apply calcOffsets_of_mem n e s w h
  unfold calcOffsetsWrites
  exact List.mem_append_left _ (List.mem_append_left _ (List.mem_append_left _
    (mem_quadrantWrites n n _ i hi)))

theorem calcOffsets_quadrant2 (n e s w : Int) (h : InCircularOrder n e s w) (card : Card)
    (i : Nat) (hi : i < (MOD360 (s - e)).toNat) :
    calcOffsets n e s w card (MOD360 (e + i)) =
      MOD360 (e - 90 + roundTimes i (delta (MOD360 (s - e)).toNat)) := by
  apply calcOffsets_of_mem n e s w h
  unfold calcOffsetsWrites
  exact List.mem_append_left _ (List.mem_append_left _ (List.mem_append_right _
    (mem_quadrantWrites e (e - 90) _ i hi)))

theorem calcOffsets_quadrant3 (n e s w : Int) (h : InCircularOrder n e s w) (card : Card)
    (i : Nat) (hi : i < (MOD360 (w - s)).toNat) :
    calcOffsets n e s w card (MOD360 (s + i)) =
      MOD360 (s - 180 + roundTimes i (delta (MOD360 (w - s)).toNat)) := by
  apply calcOffsets_of_mem n e s w h
  unfold calcOffsetsWrites
  exact List.mem_append_left _ (List.mem_append_right _ (mem_quadrantWrites s (s - 180) _ i hi))

theorem calcOffsets_quadrant4 (n e s w : Int) (h : InCircularOrder n e s w) (card : Card)
    (i : Nat) (hi : i < (MOD360 (n - w)).toNat) :
    calcOffsets n e s w card (MOD360 (w + i)) =
      MOD360 (w - 270 + roundTimes i (delta (MOD360 (n - w)).toNat)) := by
  apply calcOffsets_of_mem n e s w h
  unfold calcOffsetsWrites
  exact List.mem_append_right _ (mem_quadrantWrites w (w - 270) _ i hi)

/-- With every quadrant exactly 90 wide, each entry is the mounting offset. -/
theorem calcOffsets_square (m : Int) (card : Card) (j : Int) (hj0 : 0 ≤ j) (hj1 : j < 360) :
    calcOffsets m (m + 90) (m + 180) (m + 270) card j = MOD360 m := by
  have q1 : (MOD360 (m + 90 - m)).toNat = 90 := by rw [ MOD360_eq_emod]; omega
  have q2 : (MOD360 (m + 180 - (m + 90))).toNat = 90 := by rw [ MOD360_eq_emod]; omega
  have q3 : (MOD360 (m + 270 - (m + 180))).toNat = 90 := by rw [ MOD360_eq_emod]; omega
  have q4 : (MOD360 (m - (m + 270))).toNat = 90 := by rw [ MOD360_eq_emod]; omega
  have hord : InCircularOrder m (m + 90) (m + 180) (m + 270) := by
    unfold InCircularOrder
    simp only [ MOD360_eq_emod]
    omega
  rcases Nat.lt_or_ge ((j - m) % 360).toNat 90 with h1 | h1
  · have hj : MOD360 (m + (((j - m) % 360).toNat : Nat)) = j := by
      rw [ MOD360_eq_emod]; omega
    have h := calcOffsets_quadrant1 m (m + 90) (m + 180) (m + 270) hord card
      ((j - m) % 360).toNat (by omega)
    rw [hj, q1, roundTimes_delta_90] at h
    rw [h, MOD360_eq_emod, MOD360_eq_emod]; omega
  rcases Nat.lt_or_ge ((j - m) % 360).toNat 180 with h2 | h2
  · have hj : MOD360 (m + 90 + (((j - m) % 360).toNat - 90 : Nat)) = j := by
      rw [ MOD360_eq_emod]; omega
    have h := calcOffsets_quadrant2 m (m + 90) (m + 180) (m + 270) hord card
      (((j - m) % 360).toNat - 90) (by omega)
    rw [hj, q2, roundTimes_delta_90] at h
    rw [h, MOD360_eq_emod, MOD360_eq_emod]; omega
  rcases Nat.lt_or_ge ((j - m) % 360).toNat 270 with h3 | h3
  · have hj : MOD360 (m + 180 + (((j - m) % 360).toNat - 180 : Nat)) = j := by
      rw [ MOD360_eq_emod]; omega
    have h := calcOffsets_quadrant3 m (m + 90) (m + 180) (m + 270) hord card
      (((j - m) % 360).toNat - 180) (by omega)
    rw [hj, q3, roundTimes_delta_90] at h
    rw [h, MOD360_eq_emod, MOD360_eq_emod]; omega
  · have hj : MOD360 (m + 270 + (((j - m) % 360).toNat - 270 : Nat)) = j := by
      rw [ MOD360_eq_emod]; omega
    have h := calcOffsets_quadrant4 m (m + 90) (m + 180) (m + 270) hord card
      (((j - m) % 360).toNat - 270) (by omega)
    rw [hj, q4, roundTimes_delta_90] at h
    rw [h, MOD360_eq_emod, MOD360_eq_emod]; omega

/-- The value and the bus after `getBearing` on a successful read. -/
theorem getBearing_of_successfulRead (w : Wire) (hi lo : Nat) (h : SuccessfulRead w hi lo) :
    (getBearing w).1 = (((256 * hi + lo) / 10 : Nat) : Int) := by
  obtain ⟨ha, hr, hh, hl⟩ := h
  have hb : (((hi : Int) % 256 * 2 ^ 8 + (lo : Int) % 256).tdiv 10) =
      (((256 * hi + lo) / 10 : Nat) : Int) := by
    rw [Int.tdiv_eq_ediv (by omega) (by decide)]
    omega
  simp only [getBearing, Wire.endTransmission, Wire.beginTransmission, Wire.write,
    Wire.requestFrom, Wire.read, ha, hr, TWO_BYTES, toByte, toInt16, hb]
  simp
  omega

/-! ### The rounding error of the floating-point operations -/

theorem log2Aux_spec (fuel n : Nat) (h : n ≤ fuel) (hn : 0 < n) :
    2 ^ log2Aux fuel n ≤ n ∧ n < 2 ^ (log2Aux fuel n + 1) := by
  induction fuel generalizing n with
  | zero => omega
  | succ fuel ih =>
    unfold log2Aux
    split_ifs with h2
    · have h1 : n = 1 := by omega
      subst h1
      simp
    · have h3 := ih (n / 2) (by omega) (by omega)
      rw [pow_succ, pow_succ 2 (log2Aux fuel (n / 2) + 1)]
      omega

theorem log2_spec (n : Nat) (hn : 0 < n) : 2 ^ log2 n ≤ n ∧ n < 2 ^ (log2 n + 1) :=
  log2Aux_spec n n (le_refl n) hn

theorem floorLog2_le (a b K : Nat) (ha : 0 < a) (hb : 0 < b) (h : a < b * 2 ^ (K + 1)) :
    floorLog2 a b ≤ K := by
  have h1 := (log2_spec a ha).1
  have h2 := (log2_spec b hb).2
  have h3 : 2 ^ log2 a < 2 ^ (log2 b + 1 + (K + 1)) := by
    rw [pow_add]
    calc 2 ^ log2 a ≤ a := h1
      _ < b * 2 ^ (K + 1) := h
      _ ≤ 2 ^ (log2 b + 1) * 2 ^ (K + 1) := Nat.mul_le_mul_right _ (le_of_lt h2)
  have h4 : log2 a < log2 b + 1 + (K + 1) := (Nat.pow_lt_pow_iff_right (by decide)).mp h3
  unfold floorLog2
  simp only
  split_ifs with h5
  · by_contra h6
    have h7 : ((log2 a : Int) - (log2 b : Int)) = ((K + 1 : Nat) : Int) := by omega
    rw [h7] at h5
    simp only [Int.toNat_ofNat, Int.toNat_neg_nat, pow_zero, mul_one] at h5
    omega
  · omega

theorem divNearestEven_err (a b : Nat) (hb : 0 < b) :
    |((divNearestEven a b : Nat) : ℚ) - (a : ℚ) / b| ≤ 1 / 2 := by
  have hbq : (0 : ℚ) < b := by exact_mod_cast hb
  have ha : (a : ℚ) = b * (a / b : Nat) + (a % b : Nat) := by
    exact_mod_cast (Nat.div_add_mod a b).symm
  have hr : a % b < b := Nat.mod_lt a hb
  have hrq : ((a % b : Nat) : ℚ) < b := by exact_mod_cast hr
  have hr0 : (0 : ℚ) ≤ ((a % b : Nat) : ℚ) := by positivity
  have hdiv : (a : ℚ) / b = (a / b : Nat) + ((a % b : Nat) : ℚ) / b := by
    rw [ha]
    field_simp
    ring
  have ht0 : (0 : ℚ) ≤ ((a % b : Nat) : ℚ) / b := by positivity
  rw [hdiv, abs_le]
  unfold divNearestEven
  simp only
  split_ifs with h1 h2 h3
  · have h1q : 2 * ((a % b : Nat) : ℚ) < b := by exact_mod_cast h1
    have ht : ((a % b : Nat) : ℚ) / b ≤ 1 / 2 := by
      rw [div_le_iff₀ hbq]; linarith
    constructor <;> linarith
  · have h2q : (b : ℚ) < 2 * ((a % b : Nat) : ℚ) := by exact_mod_cast h2
    have ht : 1 / 2 ≤ ((a % b : Nat) : ℚ) / b := by
      rw [le_div_iff₀ hbq]; linarith
    have ht1 : ((a % b : Nat) : ℚ) / b ≤ 1 := by
      rw [div_le_iff₀ hbq]; linarith
    push_cast
    constructor <;> linarith
  · have h4 : 2 * (a % b) = b := by omega
    have h4q : 2 * ((a % b : Nat) : ℚ) = b := by exact_mod_cast h4
    have ht : ((a % b : Nat) : ℚ) / b = 1 / 2 := by
      rw [div_eq_iff (ne_of_gt hbq)]; linarith
    constructor <;> linarith
  · have h4 : 2 * (a % b) = b := by omega
    have h4q : 2 * ((a % b : Nat) : ℚ) = b := by exact_mod_cast h4
    have ht : ((a % b : Nat) : ℚ) / b = 1 / 2 := by
      rw [div_eq_iff (ne_of_gt hbq)]; linarith
    push_cast
    constructor <;> linarith

theorem fpRound_den_pos (prec : Nat) (emin : Int) (x : Frac) : 0 < (fpRound prec emin x).den := by
  unfold fpRound
  split_ifs
  · decide
  · exact pow_pos (by decide) _

/-- The rounding error of `fpRound` on a value below `2 ^ (K + 1)` in magnitude is at most half
a unit in the last place, `2 ^ (-N)`. -/
theorem fpRound_err (prec : Nat) (emin : Int) (x : Frac) (K N : Nat) (hd : 0 < x.den)
    (hK : x.num.natAbs < x.den * 2 ^ (K + 1))
    (hN : (K : Int) - ((prec : Int) - 1) ≤ -(N : Int)) (hmin : emin ≤ -(N : Int)) :
    |(fpRound prec emin x).val - x.val| ≤ 1 / (2 * 2 ^ N) := by
  unfold fpRound
  split_ifs with h0
  · simp [Frac.val, h0]
  · have ha : 0 < x.num.natAbs := Int.natAbs_pos.mpr h0
    have hk := floorLog2_le x.num.natAbs x.den K ha hd hK
    obtain ⟨M, hM⟩ : ∃ M : Nat, max (floorLog2 x.num.natAbs x.den - ((prec : Int) - 1)) emin
        = -((N + M : Nat) : Int) := by
      refine ⟨(-(max (floorLog2 x.num.natAbs x.den - ((prec : Int) - 1)) emin) - N).toNat, ?_⟩
      have : max (floorLog2 x.num.natAbs x.den - ((prec : Int) - 1)) emin ≤ -(N : Int) :=
        max_le (by omega) hmin
      omega
    simp only [hM, Frac.val]
    have e1 : (-((N + M : Nat) : Int)).toNat = 0 := by omega
    have e2 : (- -((N + M : Nat) : Int)).toNat = N + M := by omega
    rw [e1, e2]
    simp only [pow_zero, mul_one]
    have hdq : (0 : ℚ) < x.den := by exact_mod_cast hd
    have hP : (0 : ℚ) < 2 ^ (N + M) := by positivity
    have herr := divNearestEven_err (x.num.natAbs * 2 ^ (N + M)) x.den hd
    set m := divNearestEven (x.num.natAbs * 2 ^ (N + M)) x.den with hm
    have hnum : (x.num : ℚ) = (x.num.sign : ℚ) * (x.num.natAbs : ℚ) := by
      have h := Int.sign_mul_natAbs x.num
      calc (x.num : ℚ) = ((x.num.sign * (x.num.natAbs : Int) : Int) : ℚ) := by rw [h]
        _ = (x.num.sign : ℚ) * (x.num.natAbs : ℚ) := by rw [Int.cast_mul, Int.cast_natCast]
    have hs : |((x.num.sign : Int) : ℚ)| = 1 := by
      rcases lt_trichotomy x.num 0 with h | h | h
      · simp [Int.sign_eq_neg_one_of_neg h]
      · exact absurd h h0
      · simp [Int.sign_eq_one_of_pos h]
    have key : ((x.num.sign * (m : Int) : Int) : ℚ) / ((2 ^ (N + M) : Nat) : ℚ) - (x.num : ℚ) / x.den
        = (x.num.sign : ℚ) * ((m : ℚ) - ((x.num.natAbs * 2 ^ (N + M) : Nat) : ℚ) / x.den) / 2 ^ (N + M) := by
      rw [hnum]
      push_cast
      field_simp
      ring
    rw [key, abs_div, abs_mul, hs, one_mul, abs_of_pos hP]
    have h2 : (2 : ℚ) ^ N ≤ 2 ^ (N + M) := by
      exact pow_le_pow_right₀ (by norm_num) (by omega)
    have hPN : (0 : ℚ) < 2 ^ N := by positivity
    rw [div_le_div_iff₀ hP (by positivity)]
    calc |(m : ℚ) - ((x.num.natAbs * 2 ^ (N + M) : Nat) : ℚ) / x.den| * (2 * 2 ^ N)
        ≤ 1 / 2 * (2 * 2 ^ N) := by
          apply mul_le_mul_of_nonneg_right herr (by positivity)
      _ = 2 ^ N := by ring
      _ ≤ 1 * 2 ^ (N + M) := by linarith

theorem Frac.val_sub (a b : Frac) (ha : 0 < a.den) (hb : 0 < b.den) :
    (Frac.sub a b).val = a.val - b.val := by
  have h1 : (a.den : ℚ) ≠ 0 := by exact_mod_cast (ne_of_gt ha)
  have h2 : (b.den : ℚ) ≠ 0 := by exact_mod_cast (ne_of_gt hb)
  simp only [Frac.val, Frac.sub]
  push_cast
  field_simp
  ring

theorem Frac.val_mul (a b : Frac) : (Frac.mul a b).val = a.val * b.val := by
  simp only [Frac.val, Frac.mul]
  push_cast
  rw [mul_div_mul_comm]

theorem Frac.natAbs_lt (x : Frac) (hd : 0 < x.den) (c : Nat) (h : |x.val| < c) :
    x.num.natAbs < x.den * c := by
  have hdq : (0 : ℚ) < x.den := by exact_mod_cast hd
  have h1 : |x.val| = (x.num.natAbs : ℚ) / x.den := by
    rw [Frac.val, abs_div, abs_of_pos hdq, Nat.cast_natAbs, Int.cast_abs]
  rw [h1, div_lt_iff₀ hdq] at h
  have h2 : (x.num.natAbs : ℚ) < ((x.den * c : Nat) : ℚ) := by
    push_cast
    linarith
  exact_mod_cast h2

/-- The function `round` returns an integer within one half of its argument. -/
theorem round_err (y : Frac) (hd : 0 < y.den) : |((round y : Int) : ℚ) - y.val| ≤ 1 / 2 := by
  have hdq : (0 : ℚ) < y.den := by exact_mod_cast hd
  have h1 := Nat.div_add_mod (2 * y.num.natAbs + y.den) (2 * y.den)
  have h2 := Nat.mod_lt (2 * y.num.natAbs + y.den) (show 0 < 2 * y.den by omega)
  set r := (2 * y.num.natAbs + y.den) / (2 * y.den) with hr
  have h3 : 2 * y.den * r ≤ 2 * y.num.natAbs + y.den := by omega
  have h4 : 2 * y.num.natAbs + y.den < 2 * y.den * r + 2 * y.den := by omega
  have h3q : 2 * (y.den : ℚ) * r ≤ 2 * (y.num.natAbs : ℚ) + y.den := by exact_mod_cast h3
  have h4q : 2 * (y.num.natAbs : ℚ) + y.den < 2 * (y.den : ℚ) * r + 2 * y.den := by
    exact_mod_cast h4
  have h5 : |(r : ℚ) - (y.num.natAbs : ℚ) / y.den| ≤ 1 / 2 := by
    have hA : (y.num.natAbs : ℚ) / y.den * y.den = y.num.natAbs :=
      div_mul_cancel₀ _ (ne_of_gt hdq)
    rw [abs_le]
    constructor
    · apply le_of_mul_le_mul_right _ hdq
      rw [sub_mul, hA]
      linarith
    · apply le_of_mul_le_mul_right _ hdq
      rw [sub_mul, hA]
      linarith
  unfold round
  rw [← hr]
  split_ifs with h0
  · have hn : (y.num : ℚ) = (y.num.natAbs : ℚ) := by
      have := Int.natAbs_of_nonneg h0
      calc (y.num : ℚ) = (((y.num.natAbs : Int)) : ℚ) := by rw [this]
        _ = (y.num.natAbs : ℚ) := Int.cast_natCast _
    rw [Frac.val, hn, Int.cast_natCast]
    exact h5
  · have hn : (y.num : ℚ) = -(y.num.natAbs : ℚ) := by
      have : ((y.num.natAbs : Int)) = -y.num := by omega
      calc (y.num : ℚ) = ((-(y.num.natAbs : Int) : Int) : ℚ) := by rw [this, neg_neg]
        _ = -(y.num.natAbs : ℚ) := by rw [Int.cast_neg, Int.cast_natCast]
    rw [Frac.val, hn, Int.cast_neg, Int.cast_natCast, neg_div, ← neg_sub', abs_neg]
    exact h5

theorem toDouble_den_pos (x : Frac) : 0 < (toDouble x).den := fpRound_den_pos _ _ _

theorem toFloat_den_pos (x : Frac) : 0 < (toFloat x).den := fpRound_den_pos _ _ _

theorem toDouble_err (x : Frac) (K N : Nat) (hd : 0 < x.den)
    (hK : x.num.natAbs < x.den * 2 ^ (K + 1)) (hN : (K : Int) - 52 ≤ -(N : Int)) :
    |(toDouble x).val - x.val| ≤ 1 / (2 * 2 ^ N) :=
  fpRound_err 53 (-1074) x K N hd hK (by push_cast; omega) (by omega)

theorem toFloat_err (x : Frac) (K N : Nat) (hd : 0 < x.den)
    (hK : x.num.natAbs < x.den * 2 ^ (K + 1)) (hN : (K : Int) - 23 ≤ -(N : Int)) :
    |(toFloat x).val - x.val| ≤ 1 / (2 * 2 ^ N) :=
  fpRound_err 24 (-149) x K N hd hK (by push_cast; omega) (by omega)

theorem delta_den_pos (Q : Nat) : 0 < (delta Q).den := fpRound_den_pos _ _ _

/-- The `float` slope is within `2 ^ (-22)` of the exact slope `Q / 90 - 1`. -/
theorem delta_err (Q : Nat) (hQ : Q < 360) :
    |(delta Q).val - ((Q : ℚ) / 90 - 1)| ≤ 1 / 2 ^ 22 := by
  have hQq : (Q : ℚ) < 360 := by exact_mod_cast hQ
  have hQ0 : (0 : ℚ) ≤ Q := by positivity
  have v0 : (⟨Q, 90⟩ : Frac).val = (Q : ℚ) / 90 := by simp [Frac.val]
  have h1 := toDouble_err ⟨Q, 90⟩ 1 51 (show 0 < 90 by decide)
    (by simp only [Int.natAbs_ofNat]; omega) (by decide)
  rw [v0, abs_le] at h1
  have d1 := toDouble_den_pos ⟨Q, 90⟩
  have ds : 0 < (Frac.sub (toDouble ⟨Q, 90⟩) ⟨1, 1⟩).den := by
    simp only [Frac.sub, mul_one]; exact d1
  have vs : (Frac.sub (toDouble ⟨Q, 90⟩) ⟨1, 1⟩).val = (toDouble ⟨Q, 90⟩).val - 1 := by
    rw [Frac.val_sub _ _ d1 (show 0 < 1 by decide)]; simp [Frac.val]
  norm_num at h1
  have b1 : |(Frac.sub (toDouble ⟨Q, 90⟩) ⟨1, 1⟩).val| < ((4 : Nat) : ℚ) := by
    rw [vs, abs_lt]
    norm_num
    constructor <;> linarith [h1.1, h1.2]
  have h2 := toDouble_err (Frac.sub (toDouble ⟨Q, 90⟩) ⟨1, 1⟩) 1 51 ds
    (Frac.natAbs_lt _ ds 4 b1) (by decide)
  rw [vs, abs_le] at h2
  norm_num at h2
  have d2 := toDouble_den_pos (Frac.sub (toDouble ⟨Q, 90⟩) ⟨1, 1⟩)
  have b2 : |(toDouble (Frac.sub (toDouble ⟨Q, 90⟩) ⟨1, 1⟩)).val| < ((4 : Nat) : ℚ) := by
    rw [abs_lt]
    norm_num
    constructor <;> linarith [h1.1, h1.2, h2.1, h2.2]
  have h3 := toFloat_err (toDouble (Frac.sub (toDouble ⟨Q, 90⟩) ⟨1, 1⟩)) 1 22 d2
    (Frac.natAbs_lt _ d2 4 b2) (by decide)
  rw [abs_le] at h3
  norm_num at h3
  unfold delta
  rw [abs_le]
  norm_num
  constructor <;> linarith [h1.1, h1.2, h2.1, h2.2, h3.1, h3.2]

/-- The integer `(int)round(i*delta)` of the code is a nearest integer to the exact product
`i * (Q / 90 - 1) = i * (Q - 90) / 90`. -/
theorem roundTimes_nearest (Q i : Nat) (hQ : Q < 360) (hi : i < 360) :
    |90 * roundTimes i (delta Q) - (i : Int) * ((Q : Int) - 90)| ≤ 45 := by
  have hQq : (Q : ℚ) < 360 := by exact_mod_cast hQ
  have hQ0 : (0 : ℚ) ≤ Q := by positivity
  have hiq : (i : ℚ) < 360 := by exact_mod_cast hi
  have hi0 : (0 : ℚ) ≤ i := by positivity
  have hd := abs_le.mp (delta_err Q hQ)
  norm_num at hd
  have dd := delta_den_pos Q
  have dy : 0 < (Frac.mul ⟨i, 1⟩ (delta Q)).den := by
    simp only [Frac.mul, one_mul]; exact dd
  have vy : (Frac.mul ⟨i, 1⟩ (delta Q)).val = (i : ℚ) * (delta Q).val := by
    rw [Frac.val_mul]; simp [Frac.val]
  have m1 : (i : ℚ) * ((delta Q).val - ((Q : ℚ) / 90 - 1)) ≤ i * (1 / 4194304) :=
    mul_le_mul_of_nonneg_left (by linarith [hd.2]) hi0
  have m2 : (i : ℚ) * (-(1 / 4194304)) ≤ i * ((delta Q).val - ((Q : ℚ) / 90 - 1)) :=
    mul_le_mul_of_nonneg_left (by linarith [hd.1]) hi0
  have m3 : (i : ℚ) * ((Q : ℚ) / 90 - 1) ≤ i * 3 :=
    mul_le_mul_of_nonneg_left (by linarith) hi0
  have m4 : (i : ℚ) * (-1) ≤ i * ((Q : ℚ) / 90 - 1) :=
    mul_le_mul_of_nonneg_left (by linarith) hi0
  rw [mul_sub] at m1 m2
  rw [mul_sub] at m3 m4
  have by1 : |(Frac.mul ⟨i, 1⟩ (delta Q)).val| < ((2048 : Nat) : ℚ) := by
    rw [vy, abs_lt]
    norm_num
    constructor <;> linarith [m1, m2, m3, m4]
  have h4 := toFloat_err (Frac.mul ⟨i, 1⟩ (delta Q)) 10 13 dy
    (Frac.natAbs_lt _ dy 2048 by1) (by decide)
  rw [vy, abs_le] at h4
  have h5 := abs_le.mp (round_err (toFloat (Frac.mul ⟨i, 1⟩ (delta Q))) (toFloat_den_pos _))
  have hr : roundTimes i (delta Q) = round (toFloat (Frac.mul ⟨i, 1⟩ (delta Q))) := rfl
  rw [← hr] at h5
  norm_num at h4
  have hq : |((90 * roundTimes i (delta Q) - (i : Int) * ((Q : Int) - 90) : Int) : ℚ)| < 46 := by
    rw [abs_lt]
    push_cast
    rw [mul_sub]
    constructor <;> linarith [m1, m2, h4.1, h4.2, h5.1, h5.2]
  have hz : |90 * roundTimes i (delta Q) - (i : Int) * ((Q : Int) - 90)| < 46 := by
    exact_mod_cast hq
  rw [abs_lt] at hz
  rw [abs_le]
  constructor <;> omega

/-- Away from an exact tie the code's rounded product is the exactly rounded one. -/
theorem roundTimes_eq_exact (Q i : Nat) (hQ : Q < 360) (hi : i < 360)
    (hne : ((i : Int) * ((Q : Int) - 90)) % 90 ≠ 45) :
    roundTimes i (delta Q) = round (Frac.mul ⟨i, 1⟩ (specDelta Q)) := by
  have h := abs_le.mp (roundTimes_nearest Q i hQ hi)
  simp only [round, Frac.mul, specDelta, Frac.sub, Nat.cast_one, mul_one, one_mul,
    Nat.cast_ofNat]
  generalize (i : Int) * ((Q : Int) - 90) = c at h hne ⊢
  split_ifs <;> omega

theorem specEntry_eq (base : Int) (Q i : Nat) :
    specEntry base Q i = MOD360 (base + round (Frac.mul ⟨i, 1⟩ (specDelta Q))) := by
  rw [ MOD360_eq_emod]
  unfold specEntry
  omega

/-! ## Coverage of the card by `calcOffsets` -/

/-- C1. For readings in strictly increasing circular order, `calcOffsets(n,e,s,w)` assigns every
index `0..359` of `compassCard` exactly once: running it is replaying the assignments of
`calcOffsetsWrites`, which name each index once, and the four index sets
`MOD360(first+i)`, `0 ≤ i < Qsize`, are pairwise disjoint and their union is all of `[0,360)`. -/
theorem calcOffsets_writes_each_index_once (n e s w : Int) (h : InCircularOrder n e s w) :
    (∀ card : Card, calcOffsets n e s w card = writeAll (calcOffsetsWrites n e s w) card) ∧
    (∀ j : Int, 0 ≤ j → j < 360 → ((calcOffsetsWrites n e s w).map Prod.fst).count j = 1) ∧
    (quadrantIndices n (MOD360 (e - n)).toNat).Disjoint
      (quadrantIndices e (MOD360 (s - e)).toNat) ∧
    (quadrantIndices n (MOD360 (e - n)).toNat).Disjoint
      (quadrantIndices s (MOD360 (w - s)).toNat) ∧
    (quadrantIndices n (MOD360 (e - n)).toNat).Disjoint
      (quadrantIndices w (MOD360 (n - w)).toNat) ∧
    (quadrantIndices e (MOD360 (s - e)).toNat).Disjoint
      (quadrantIndices s (MOD360 (w - s)).toNat) ∧
    (quadrantIndices e (MOD360 (s - e)).toNat).Disjoint
      (quadrantIndices w (MOD360 (n - w)).toNat) ∧
    (quadrantIndices s (MOD360 (w - s)).toNat).Disjoint
      (quadrantIndices w (MOD360 (n - w)).toNat) ∧
    (∀ j : Int, (0 ≤ j ∧ j < 360) ↔
      (j ∈ quadrantIndices n (MOD360 (e - n)).toNat ∨
       j ∈ quadrantIndices e (MOD360 (s - e)).toNat ∨
       j ∈ quadrantIndices s (MOD360 (w - s)).toNat ∨
       j ∈ quadrantIndices w (MOD360 (n - w)).toNat)) := by
  have hcount := count_calcOffsetsWrites n e s w h
  obtain ⟨h1, h2, h3, h4, h5⟩ := h
  have m1 := mem_quadrantIndices n _ (quadrantSize_le (e - n))
  have m2 := mem_quadrantIndices e _ (quadrantSize_le (s - e))
  have m3 := mem_quadrantIndices s _ (quadrantSize_le (w - s))
  have m4 := mem_quadrantIndices w _ (quadrantSize_le (n - w))
  rw [ MOD360_eq_emod] at h1 h2 h3 h4
  simp only [ MOD360_eq_emod] at h5 m1 m2 m3 m4
  refine ⟨calcOffsets_eq_writeAll n e s w, hcount, ?_, ?_, ?_, ?_, ?_, ?_, ?_⟩
  · intro j a b
    simp only [ MOD360_eq_emod] at a b
    rw [m1] at a; rw [m2] at b; omega
  · intro j a b
    simp only [ MOD360_eq_emod] at a b
    rw [m1] at a; rw [m3] at b; omega
  · intro j a b
    simp only [ MOD360_eq_emod] at a b
    rw [m1] at a; rw [m4] at b; omega
  · intro j a b
    simp only [ MOD360_eq_emod] at a b
    rw [m2] at a; rw [m3] at b; omega
  · intro j a b
    simp only [ MOD360_eq_emod] at a b
    rw [m2] at a; rw [m4] at b; omega
  · intro j a b
    simp only [ MOD360_eq_emod] at a b
    rw [m3] at a; rw [m4] at b; omega
  · intro j
    simp only [ MOD360_eq_emod]
    rw [m1, m2, m3, m4]
    omega

/-- Witness of C1 at the readings `10, 95, 200, 280`: they are in circular order and index `123`
is assigned exactly once. -/
theorem calcOffsets_writes_each_index_once_witness :
    InCircularOrder 10 95 200 280 ∧
    ((calcOffsetsWrites 10 95 200 280).map Prod.fst).count 123 = 1 :=
  ⟨by decide,
    (calcOffsets_writes_each_index_once 10 95 200 280 (by decide)).2.1 123 (by decide)
      (by decide)⟩

/-! ## The entries computed by `calcOffsets` -/

/-- C2, refuted as stated. The readings `0, 203, 250, 300` are in circular order and `i = 45`
lies in the first quadrant (size 203), where `i * delta = 45 * 113 / 90` is exactly `56.5`: the
specification's formula gives `57`, but `calcOffsets` stores `56`, because `delta` is held in a
`float` (`1.2555555105...`, below `113 / 90`) and the product is `56.499996`. -/
theorem exact_tie_counterexample :
    InCircularOrder 0 203 250 300 ∧ 45 < (MOD360 (203 - 0)).toNat ∧
    calcOffsets 0 203 250 300 initialCard (MOD360 (0 + (45 : Nat))) = 56 ∧
    specEntry (0 - 0) (MOD360 (203 - 0)).toNat 45 = 57 ∧
    calcOffsets 0 203 250 300 initialCard (MOD360 (0 + (45 : Nat))) ≠
      specEntry (0 - 0) (MOD360 (203 - 0)).toNat 45 := by
  have h1 : calcOffsets 0 203 250 300 initialCard (MOD360 (0 + (45 : Nat))) = 56 := by
    rw [calcOffsets_quadrant1 0 203 250 300 (by decide) initialCard 45 (by decide)]
    decide
  have h2 : specEntry (0 - 0) (MOD360 (203 - 0)).toNat 45 = 57 := by decide
  refine ⟨by decide, by decide, h1, h2, ?_⟩
  rw [h1, h2]
  decide

/-- C2, amended. For readings in strictly increasing circular order, each quadrant
`(first, next, T)` among `(n,e,0)`, `(e,s,90)`, `(s,w,180)`, `(w,n,270)` and every `i` below the
quadrant's size `Qsize = MOD360(next - first)`, the entry at `MOD360(first+i)` after
`calcOffsets` is `MOD360((first - T) + r)`, where `r = (int)round(i*delta)` is evaluated as the
code does (`delta` is `Qsize/90.0 - 1` stored in a `float`, and the `float` product `i*delta` is
rounded, a tie going away from zero).  This `r` is a nearest integer to the exact product
`i * (Qsize - 90) / 90`, so the entry is the one of the specification's formula unless the exact
product is a tie, `i * (Qsize - 90) ≡ 45 (mod 90)`. -/
theorem calcOffsets_entry (n e s w : Int) (h : InCircularOrder n e s w) (card : Card)
    (first next T : Int)
    (hq : (first, next, T) ∈ [(n, e, (0 : Int)), (e, s, 90), (s, w, 180), (w, n, 270)])
    (i : Nat) (hi : i < (MOD360 (next - first)).toNat) :
    calcOffsets n e s w card (MOD360 (first + i)) =
      MOD360 ((first - T) + roundTimes i (delta (MOD360 (next - first)).toNat)) ∧
    |90 * roundTimes i (delta (MOD360 (next - first)).toNat) -
        (i : Int) * (((MOD360 (next - first)).toNat : Int) - 90)| ≤ 45 ∧
    (((i : Int) * (((MOD360 (next - first)).toNat : Int) - 90)) % 90 ≠ 45 →
      calcOffsets n e s w card (MOD360 (first + i)) =
        specEntry (first - T) (MOD360 (next - first)).toNat i) := by
  have hQ : (MOD360 (next - first)).toNat < 360 := by
    have h1 := MOD360_lt (next - first)
    have h0 := MOD360_nonneg (next - first)
    omega
  have hcode : calcOffsets n e s w card (MOD360 (first + i)) =
      MOD360 ((first - T) + roundTimes i (delta (MOD360 (next - first)).toNat)) := by
    simp only [List.mem_cons, Prod.mk.injEq, List.mem_singleton, List.mem_nil_iff,
      or_false] at hq
    rcases hq with ⟨rfl, rfl, rfl⟩ | ⟨rfl, rfl, rfl⟩ | ⟨rfl, rfl, rfl⟩ | ⟨rfl, rfl, rfl⟩
    · rw [sub_zero]
      exact calcOffsets_quadrant1 _ _ _ _ h card i hi
    · exact calcOffsets_quadrant2 _ _ _ _ h card i hi
    · exact calcOffsets_quadrant3 _ _ _ _ h card i hi
    · exact calcOffsets_quadrant4 _ _ _ _ h card i hi
  refine ⟨hcode, roundTimes_nearest _ i hQ (by omega), fun hne => ?_⟩
  rw [hcode, specEntry_eq, roundTimes_eq_exact _ i hQ (by omega) hne]

/-- Witness of the amended C2 at the readings `10, 95, 200, 280`, in the quadrant from east
to south (size 105) at `i = 40`, where `40 * 15 / 90` is no tie. -/
theorem calcOffsets_entry_witness :
    InCircularOrder 10 95 200 280 ∧ 40 < (MOD360 (200 - 95)).toNat ∧
    calcOffsets 10 95 200 280 initialCard (MOD360 (95 + (40 : Nat))) =
      specEntry (95 - 90) (MOD360 (200 - 95)).toNat 40 :=
  ⟨by decide, by decide,
    (calcOffsets_entry 10 95 200 280 (by decide) initialCard 95 200 90 (by simp) 40
      (by decide)).2.2 (by decide)⟩

/-! ## Reset and the square card -/

/-- C3, refuted as stated. After `resetCompassCard()` the lookup of raw heading `1` returns `0`,
not `1`. -/
theorem reset_lookup_counterexample :
    apply (resetCompassCard initialCard) 1 = 0 ∧ apply (resetCompassCard initialCard) 1 ≠ 1 := by
  have h : apply (resetCompassCard initialCard) 1 = 0 :=
    resetCompassCard_entry initialCard (1 % 360) (by decide) (by decide)
  exact ⟨h, by rw [h]; decide⟩

/-- C3, amended. After `resetCompassCard()`, whatever the card held before, for every raw
heading `h` (in `[0,360)` or not) the lookup `apply(h)` returns the offset `0`. -/
theorem apply_reset (card : Card) (h : Int) : apply (resetCompassCard card) h = 0 :=
  resetCompassCard_entry card (h % 360) (by omega) (by omega)

/-- C4, refuted as stated. After `calcOffsets(0, 90, 180, 270)` the lookup of raw heading `1`
returns `0`, not `1`. -/
theorem square_lookup_counterexample :
    apply (calcOffsets 0 90 180 270 initialCard) 1 = 0 ∧
    apply (calcOffsets 0 90 180 270 initialCard) 1 ≠ 1 := by
  have h : apply (calcOffsets 0 90 180 270 initialCard) 1 = 0 :=
    calcOffsets_square 0 initialCard (1 % 360) (by decide) (by decide)
  exact ⟨h, by rw [h]; decide⟩

/-- C4, amended. After `calcOffsets(0, 90, 180, 270)`, whatever the card held before, for every
raw heading `h` (in `[0,360)` or not) the lookup `apply(h)` returns the offset `0`. -/
theorem apply_square (card : Card) (h : Int) : apply (calcOffsets 0 90 180 270 card) h = 0 :=
  calcOffsets_square 0 card (h % 360) (by omega) (by omega)

/-- C5. Whatever `compassCard` held, after `resetCompassCard()` each of the 360 entries is `0`,
as it is in the zero-initialised card at program start. -/
theorem resetCompassCard_all_zero (card : Card) (j : Int) (hj0 : 0 ≤ j) (hj1 : j < 360) :
    resetCompassCard card j = 0 ∧ resetCompassCard card j = initialCard j :=
  ⟨resetCompassCard_entry card j hj0 hj1, resetCompassCard_entry card j hj0 hj1⟩

/-- Witness of C5 at index `359` of a card that held `77` everywhere. -/
theorem resetCompassCard_all_zero_witness :
    (0 : Int) ≤ 359 ∧ (359 : Int) < 360 ∧ resetCompassCard (fun _ => 77) 359 = 0 :=
  ⟨by decide, by decide, (resetCompassCard_all_zero (fun _ => 77) 359 (by decide) (by decide)).1⟩

/-! ## The invariant and the frame of `calcOffsets` -/

/-- C6. "Every entry is in `[0,360)`" holds of the initial card, holds after
`resetCompassCard()`, and is preserved by `calcOffsets(n,e,s,w)` for all readings; every value
`calcOffsets` assigns is in `[0,360)`, and such a value is unchanged by the conversion to
`int16_t`. -/
theorem cardInRange_invariant :
    CardInRange initialCard ∧
    (∀ card : Card, CardInRange (resetCompassCard card)) ∧
    (∀ (n e s w : Int) (card : Card),
      CardInRange card → CardInRange (calcOffsets n e s w card)) ∧
    (∀ (n e s w j v : Int), (j, v) ∈ calcOffsetsWrites n e s w → 0 ≤ v ∧ v < 360) ∧
    (∀ x : Int, 0 ≤ MOD360 x ∧ MOD360 x < 360 ∧ toInt16 (MOD360 x) = MOD360 x) := by
  refine ⟨?_, ?_, ?_, ?_, ?_⟩
  · intro j _ _
    exact ⟨le_refl (0 : Int), show (0 : Int) < 360 by decide⟩
  · intro card j hj0 hj1
    rw [resetCompassCard_entry card j hj0 hj1]
    exact ⟨le_refl (0 : Int), show (0 : Int) < 360 by decide⟩
  · intro n e s w card hcard j hj0 hj1
    by_cases hmem : j ∈ (calcOffsetsWrites n e s w).map Prod.fst
    · have h := writeAll_of_mem _ card j hmem
      rw [← calcOffsets_eq_writeAll] at h
      obtain ⟨-, -, hv0, hv1⟩ := mem_calcOffsetsWrites_bounds n e s w _ _ h
      exact ⟨hv0, hv1⟩
    · rw [calcOffsets_unwritten n e s w card j hmem]
      exact hcard j hj0 hj1
  · intro n e s w j v hv
    obtain ⟨-, -, hv0, hv1⟩ := mem_calcOffsetsWrites_bounds n e s w j v hv
    exact ⟨hv0, hv1⟩
  · intro x
    exact ⟨MOD360_nonneg x, MOD360_lt x, toInt16_MOD360 x⟩

/-- Witness of C6: the initial card is in range, hence so is the card that
`calcOffsets(10, 95, 200, 280)` makes of it. -/
theorem cardInRange_invariant_witness :
    CardInRange initialCard ∧ CardInRange (calcOffsets 10 95 200 280 initialCard) :=
  ⟨cardInRange_invariant.1,
    cardInRange_invariant.2.2.1 10 95 200 280 initialCard cardInRange_invariant.1⟩

/-- C7. `calcOffsets(n,e,s,w)` leaves unchanged every entry whose index is not
`MOD360(first+i)` for any quadrant and any `i` below that quadrant's size; in particular
`calcOffsets(x,x,x,x)` leaves the whole card unchanged, all zero if it was freshly reset. -/
theorem calcOffsets_frame :
    (∀ (n e s w : Int) (card : Card) (j : Int),
      (∀ i : Nat,
        (i < (MOD360 (e - n)).toNat → j ≠ MOD360 (n + i)) ∧
        (i < (MOD360 (s - e)).toNat → j ≠ MOD360 (e + i)) ∧
        (i < (MOD360 (w - s)).toNat → j ≠ MOD360 (s + i)) ∧
        (i < (MOD360 (n - w)).toNat → j ≠ MOD360 (w + i))) →
      calcOffsets n e s w card j = card j) ∧
    (∀ (x : Int) (card : Card), calcOffsets x x x x card = card) ∧
    (∀ (x : Int) (card : Card) (j : Int), 0 ≤ j → j < 360 →
      calcOffsets x x x x (resetCompassCard card) j = 0) := by
  refine ⟨?_, calcOffsets_same, ?_⟩
  · intro n e s w card j hj
    apply calcOffsets_unwritten
    rw [calcOffsetsWrites_fst]
    simp only [quadrantIndices, List.mem_append, List.mem_map, List.mem_range, not_or,
      not_exists, not_and]
    exact ⟨⟨⟨fun i hi hji => (hj i).1 hi hji.symm, fun i hi hji => (hj i).2.1 hi hji.symm⟩,
      fun i hi hji => (hj i).2.2.1 hi hji.symm⟩, fun i hi hji => (hj i).2.2.2 hi hji.symm⟩
  · intro x card j hj0 hj1
    rw [calcOffsets_same]
    exact resetCompassCard_entry card j hj0 hj1

/-- Witness of C7 at the readings `5, 5, 5, 5`, whose quadrants are all empty, and index `7`. -/
theorem calcOffsets_frame_witness :
    calcOffsets 5 5 5 5 (fun _ => 77) 7 = (fun _ => 77 : Card) 7 :=
  calcOffsets_frame.1 5 5 5 5 (fun _ => 77) 7
    (fun i => ⟨fun hi => absurd hi (Nat.not_lt_zero i), fun hi => absurd hi (Nat.not_lt_zero i),
      fun hi => absurd hi (Nat.not_lt_zero i), fun hi => absurd hi (Nat.not_lt_zero i)⟩)

/-! ## `getBearing` -/

/-- C8. On a successful read (register-select write acknowledged, exactly two bytes `hi`, `lo`
returned) `getBearing()` returns the 16-bit big-endian value divided by ten with truncation,
`(256*hi + lo) / 10`. -/
theorem getBearing_value (w : Wire) (hi lo : Nat) (h : SuccessfulRead w hi lo) :
    (getBearing w).1 = (((256 * hi + lo) / 10 : Nat) : Int) :=
  getBearing_of_successfulRead w hi lo h

/-- Witness of C8: the bytes `0x0E, 0x0F` (the word 3599) give the bearing 359. -/
theorem getBearing_value_witness :
    SuccessfulRead ⟨[0], [[14, 15]], [], []⟩ 14 15 ∧
    (getBearing ⟨[0], [[14, 15]], [], []⟩).1 = (((256 * 14 + 15) / 10 : Nat) : Int) :=
  ⟨by decide, getBearing_value ⟨[0], [[14, 15]], [], []⟩ 14 15 (by decide)⟩

/-- C9, refuted as stated. On a successful read of the bytes `0xFF, 0xFF` `getBearing()` returns
`6553`, which is not a heading in `[0,360)`. -/
theorem bearing_word_counterexample :
    SuccessfulRead ⟨[0], [[255, 255]], [], []⟩ 255 255 ∧
    (getBearing ⟨[0], [[255, 255]], [], []⟩).1 = 6553 ∧
    ¬ (0 ≤ (getBearing ⟨[0], [[255, 255]], [], []⟩).1 ∧
        (getBearing ⟨[0], [[255, 255]], [], []⟩).1 < 360) := by
  decide

/-- C9, amended. On a successful read of the bytes `hi`, `lo` the value `getBearing()` returns is
in `[0, 6553]`, and it is a heading in `[0,360)` exactly when the word `256*hi + lo` is in the
sensor's documented range `0..3599`. -/
theorem getBearing_range (w : Wire) (hi lo : Nat) (h : SuccessfulRead w hi lo) :
    0 ≤ (getBearing w).1 ∧ (getBearing w).1 ≤ 6553 ∧
    ((getBearing w).1 < 360 ↔ 256 * hi + lo ≤ 3599) := by
  rw [getBearing_of_successfulRead w hi lo h]
  obtain ⟨-, -, hh, hl⟩ := h
  omega

/-- Witness of the amended C9 at the bytes `0x0E, 0x10` (the word 3600, bearing 360). -/
theorem getBearing_range_witness :
    SuccessfulRead ⟨[0], [[14, 16]], [], []⟩ 14 16 ∧
    ((getBearing ⟨[0], [[14, 16]], [], []⟩).1 < 360 ↔ 256 * 14 + 16 ≤ 3599) :=
  ⟨by decide, (getBearing_range ⟨[0], [[14, 16]], [], []⟩ 14 16 (by decide)).2.2⟩

/-- C10. `getBearing()` returns `0` (a plain value, the function has no error result) whenever
the register-select write is not acknowledged or the read request does not return exactly two
bytes; after a negative acknowledge its only bus calls are `beginTransmission`, `write` and
`endTransmission`, so no read request is issued. -/
theorem getBearing_failure (w : Wire) :
    ((w.acks.headD 0 ≠ 0 ∨ (w.replies.headD []).length ≠ 2) → (getBearing w).1 = 0) ∧
    (w.acks.headD 0 ≠ 0 →
      (getBearing w).2.trace =
        w.trace ++ [BusCall.beginTransmission 0x60, BusCall.write 2, BusCall.endTransmission]) := by
  constructor
  · intro h
    by_cases ha : w.acks.headD 0 = 0
    · have hr : (w.replies.headD []).length ≠ 2 := by
        rcases h with h | h
        · exact absurd ha h
        · exact h
      have hr2 : ((w.replies.headD []).length : Int) ≠ ((2 : Nat) : Int) := by
        intro hc
        exact hr (by exact_mod_cast hc)
      simp only [getBearing, Wire.endTransmission, Wire.beginTransmission, Wire.write,
        Wire.requestFrom, TWO_BYTES, ha, hr2, ne_eq, not_true_eq_false, not_false_eq_true,
        if_true, if_false]
    · simp only [getBearing, Wire.endTransmission, Wire.beginTransmission, Wire.write, ha,
        ne_eq, not_false_eq_true, if_true]
  · intro ha
    simp only [getBearing, Wire.endTransmission, Wire.beginTransmission, Wire.write, ha,
      CMPS14_I2C_ADDRESS, BEARING_Register, ne_eq, not_false_eq_true, if_true,
      List.append_assoc, List.singleton_append]
    rfl

/-- Witness of C10: a negative acknowledge (result `2`), and a short read of one byte. -/
theorem getBearing_failure_witness :
    (getBearing ⟨[2], [[14, 15]], [], []⟩).1 = 0 ∧
    (getBearing ⟨[2], [[14, 15]], [], []⟩).2.trace =
      [BusCall.beginTransmission 0x60, BusCall.write 2, BusCall.endTransmission] ∧
    (getBearing ⟨[0], [[14]], [], []⟩).1 = 0 :=
  ⟨(getBearing_failure ⟨[2], [[14, 15]], [], []⟩).1 (Or.inl (by decide)),
    (getBearing_failure ⟨[2], [[14, 15]], [], []⟩).2 (by decide),
    (getBearing_failure ⟨[0], [[14]], [], []⟩).1 (Or.inr (by decide))⟩

/-! ## Lemmas on the calibration procedures -/

@[simp] theorem printTerm_wire (m : String) (s : Board) : (printTerm m s).wire = s.wire := rfl

@[simp] theorem printTerm_terminal (m : String) (s : Board) :
    (printTerm m s).terminal = s.terminal ++ [m] := rfl

@[simp] theorem delay_trace (ms : Nat) (s : Board) :
    (delay ms s).wire.trace = s.wire.trace ++ [BusCall.delay ms] := rfl

@[simp] theorem delay_acks (ms : Nat) (s : Board) : (delay ms s).wire.acks = s.wire.acks := rfl

@[simp] theorem delay_replies (ms : Nat) (s : Board) :
    (delay ms s).wire.replies = s.wire.replies := rfl

@[simp] theorem delay_terminal (ms : Nat) (s : Board) : (delay ms s).terminal = s.terminal := rfl

@[simp] theorem beginTransmission_trace (s : Board) (a : Nat) :
    (s.beginTransmission a).wire.trace = s.wire.trace ++ [BusCall.beginTransmission a] := rfl

@[simp] theorem beginTransmission_acks (s : Board) (a : Nat) :
    (s.beginTransmission a).wire.acks = s.wire.acks := rfl

@[simp] theorem beginTransmission_replies (s : Board) (a : Nat) :
    (s.beginTransmission a).wire.replies = s.wire.replies := rfl

@[simp] theorem beginTransmission_terminal (s : Board) (a : Nat) :
    (s.beginTransmission a).terminal = s.terminal := rfl

@[simp] theorem write_trace (s : Board) (b : Nat) :
    (s.write b).wire.trace = s.wire.trace ++ [BusCall.write b] := rfl

@[simp] theorem write_acks (s : Board) (b : Nat) : (s.write b).wire.acks = s.wire.acks := rfl

@[simp] theorem write_replies (s : Board) (b : Nat) :
    (s.write b).wire.replies = s.wire.replies := rfl

@[simp] theorem write_terminal (s : Board) (b : Nat) : (s.write b).terminal = s.terminal := rfl

@[simp] theorem endTransmission_trace (s : Board) :
    (endTransmission s).wire.trace =
      s.wire.trace ++ [BusCall.endTransmission, BusCall.delay 100] := by
  simp only [endTransmission]
  split_ifs <;> simp [Wire.endTransmission]

@[simp] theorem endTransmission_acks (s : Board) :
    (endTransmission s).wire.acks = s.wire.acks.tail := by
  simp only [endTransmission]
  split_ifs <;> simp [Wire.endTransmission]

@[simp] theorem endTransmission_replies (s : Board) :
    (endTransmission s).wire.replies = s.wire.replies := by
  simp only [endTransmission]
  split_ifs <;> simp [Wire.endTransmission]

@[simp] theorem endTransmission_terminal (s : Board) :
    (endTransmission s).terminal = s.terminal ++ nackMessage (s.wire.acks.headD 0) := by
  simp only [endTransmission, nackMessage]
  split_ifs <;> simp_all [Wire.endTransmission]

@[simp] theorem writeToCMPS14_trace (n : Nat) (s : Board) :
    (writeToCMPS14 n s).wire.trace =
      s.wire.trace ++ [BusCall.beginTransmission 0x60, BusCall.write 0x00, BusCall.write n,
        BusCall.endTransmission, BusCall.delay 100] := by
  simp [writeToCMPS14, _i2cAddress]

@[simp] theorem writeToCMPS14_acks (n : Nat) (s : Board) :
    (writeToCMPS14 n s).wire.acks = s.wire.acks.tail := by
  simp [writeToCMPS14]

@[simp] theorem writeToCMPS14_replies (n : Nat) (s : Board) :
    (writeToCMPS14 n s).wire.replies = s.wire.replies := by
  simp [writeToCMPS14]

@[simp] theorem writeToCMPS14_terminal (n : Nat) (s : Board) :
    (writeToCMPS14 n s).terminal = s.terminal ++ nackMessage (s.wire.acks.headD 0) := by
  simp [writeToCMPS14]

@[simp] theorem Countdown_trace (k : Nat) (s : Board) :
    (Countdown k s).wire.trace = s.wire.trace ++ List.replicate k (BusCall.delay 1000) := by
  induction k generalizing s with
  | zero => simp [Countdown]
  | succ k ih => simp [Countdown, ih, List.replicate_succ]

@[simp] theorem Countdown_replies (k : Nat) (s : Board) :
    (Countdown k s).wire.replies = s.wire.replies := by
  induction k generalizing s with
  | zero => simp [Countdown]
  | succ k ih => simp [Countdown, ih]

@[simp] theorem printMenu_wire (s : Board) : (printMenu s).wire = s.wire := by
  simp [printMenu]

theorem getCalibration_trace (s : Board) :
    (getCalibration s).2.wire.trace =
      s.wire.trace ++ getCalibrationCalls (s.wire.replies.headD []) := by
  obtain ⟨⟨acks, replies, rx, trace⟩, terminal⟩ := s
  rcases replies with _ | ⟨reply, later⟩
  · simp [getCalibration, getCalibrationCalls, Board.requestFrom, Board.read, Wire.requestFrom,
      Wire.read, _i2cAddress, calibrationQuality]
  · rcases reply with _ | ⟨b, _ | ⟨c, more⟩⟩
    · simp [getCalibration, getCalibrationCalls, Board.requestFrom, Board.read,
        Wire.requestFrom, Wire.read, _i2cAddress, calibrationQuality]
    · simp [getCalibration, getCalibrationCalls, Board.requestFrom, Board.read,
        Wire.requestFrom, Wire.read, _i2cAddress, calibrationQuality]
    · have hlen : (more.length : Int) + 1 ≠ 0 := by omega
      simp [getCalibration, getCalibrationCalls, Board.requestFrom, Board.read,
        Wire.requestFrom, Wire.read, _i2cAddress, calibrationQuality, hlen]

theorem getCalibration_replies (s : Board) :
    (getCalibration s).2.wire.replies = s.wire.replies.tail := by
  obtain ⟨⟨acks, replies, rx, trace⟩, terminal⟩ := s
  rcases replies with _ | ⟨reply, later⟩
  · simp [getCalibration, Board.requestFrom, Board.read, Wire.requestFrom, Wire.read]
  · rcases reply with _ | ⟨b, _ | ⟨c, more⟩⟩
    · simp [getCalibration, Board.requestFrom, Board.read, Wire.requestFrom, Wire.read]
    · simp [getCalibration, Board.requestFrom, Board.read, Wire.requestFrom, Wire.read]
    · have hlen : (more.length : Int) + 1 ≠ 0 := by omega
      simp [getCalibration, Board.requestFrom, Board.read, Wire.requestFrom, Wire.read, hlen]

@[simp] theorem CalibrationQuality_trace (s : Board) :
    (CalibrationQuality s).wire.trace =
      s.wire.trace ++ getCalibrationCalls (s.wire.replies.headD []) := by
  simp [CalibrationQuality, getCalibration_trace]

@[simp] theorem CalibrationQuality_replies (s : Board) :
    (CalibrationQuality s).wire.replies = s.wire.replies.tail := by
  simp [CalibrationQuality, getCalibration_replies]

theorem getVersion_trace (s : Board) :
    (getVersion s).2.wire.trace =
      s.wire.trace ++ [BusCall.beginTransmission 0x60, BusCall.write 0x00, BusCall.write 0x11,
        BusCall.endTransmission, BusCall.delay 100, BusCall.requestFrom 0x60 1, BusCall.read] := by
  obtain ⟨⟨acks, replies, rx, trace⟩, terminal⟩ := s
  rcases replies with _ | ⟨reply, later⟩
  · simp [getVersion, Board.requestFrom, Board.read, Wire.requestFrom, Wire.read, _i2cAddress]
  · rcases reply with _ | ⟨b, more⟩ <;>
      simp [getVersion, Board.requestFrom, Board.read, Wire.requestFrom, Wire.read, _i2cAddress]

theorem handleEnableMagCalib_trace (s : Board) :
    (handleEnableMagCalib s).2.wire.trace =
      s.wire.trace ++ threeWrites 0x98 0x95 0x99 ++ selectorWrite 0b10000001 := by
  simp [handleEnableMagCalib, initCMPSconfig, threeWrites, selectorWrite, _i2cAddress]

theorem calibrationMenu_m_trace (s : Board) :
    (calibrationMenu 'm' s).wire.trace =
      s.wire.trace ++ threeWrites 0x98 0x95 0x99 ++ selectorWrite 0b10000001 ++
        List.replicate 40 (BusCall.delay 1000) ++ getCalibrationCalls (s.wire.replies.headD []) ++
        [BusCall.endTransmission, BusCall.delay 100] := by
  simp [calibrationMenu, calibrationSwitch, threeWrites, selectorWrite, _i2cAddress]

theorem handleSaveCalibration_trace (s : Board) :
    (handleSaveCalibration s).2.wire.trace = s.wire.trace ++ threeWrites 0xF0 0xF5 0xF6 := by
  simp [handleSaveCalibration, threeWrites]

theorem handleResetCalibration_trace (s : Board) :
    (handleResetCalibration s).2.wire.trace = s.wire.trace ++ threeWrites 0xE0 0xE5 0xE2 := by
  simp [handleResetCalibration, threeWrites]

theorem calibrationMenu_s_trace (s : Board) :
    (calibrationMenu 's' s).wire.trace =
      s.wire.trace ++ threeWrites 0xF0 0xF5 0xF6 ++
        [BusCall.endTransmission, BusCall.delay 100] := by
  simp [calibrationMenu, threeWrites]

theorem calibrationMenu_e_trace (s : Board) :
    (calibrationMenu 'e' s).wire.trace =
      s.wire.trace ++ threeWrites 0xE0 0xE5 0xE2 ++
        [BusCall.delay 500, BusCall.endTransmission, BusCall.delay 100] := by
  simp [calibrationMenu, threeWrites]

theorem calibrationMenu_x_trace (s : Board) :
    (calibrationMenu 'x' s).wire.trace =
      s.wire.trace ++ threeWrites 0x98 0x95 0x99 ++ selectorWrite 0b10000000 ++
        getCalibrationCalls (s.wire.replies.headD []) ++
        [BusCall.endTransmission, BusCall.delay 100] := by
  simp [calibrationMenu, calibrationSwitch, threeWrites, selectorWrite, _i2cAddress]

theorem disableCalibration_trace (s : Board) :
    (disableCalibration s).wire.trace =
      s.wire.trace ++ threeWrites 0x98 0x95 0x99 ++
        [BusCall.beginTransmission 0x60, BusCall.delay 20, BusCall.write 0b10000000,
          BusCall.endTransmission, BusCall.delay 100] := by
  simp [disableCalibration, threeWrites, _i2cAddress]

theorem disableCalibration_fresh (s : Board) :
    (handleDisableCalibration s).2.wire.trace =
      s.wire.trace ++ (handleDisableCalibration ⟨⟨[], [], [], []⟩, []⟩).2.wire.trace := by
  simp only [handleDisableCalibration]
  rw [disableCalibration_trace, disableCalibration_trace, List.append_assoc]
  rfl

theorem handleEnableAccelCalib_trace (s : Board) :
    (handleEnableAccelCalib s).2.wire.trace =
      s.wire.trace ++ threeWrites 0x98 0x95 0x99 ++ selectorWrite 0b10000010 := by
  simp [handleEnableAccelCalib, initCMPSconfig, threeWrites, selectorWrite, _i2cAddress]

theorem handleEnableGyroCalib_trace (s : Board) :
    (handleEnableGyroCalib s).2.wire.trace =
      s.wire.trace ++ threeWrites 0x98 0x95 0x99 ++ selectorWrite 0b10000100 := by
  simp [handleEnableGyroCalib, initCMPSconfig, threeWrites, selectorWrite, _i2cAddress]

theorem getBearing_trace (w : Wire) :
    (getBearing w).2.trace =
      w.trace ++ [BusCall.beginTransmission 0x60, BusCall.write 2, BusCall.endTransmission] ++
        (if w.acks.headD 0 ≠ 0 then []
         else BusCall.requestFrom 0x60 2 ::
          (if (w.replies.headD []).length ≠ 2 then [] else [BusCall.read, BusCall.read])) := by
  obtain ⟨acks, replies, rx, trace⟩ := w
  by_cases ha : acks.headD 0 = 0
  · have ha2 : acks.head?.getD 0 = 0 := by simpa using ha
    rcases replies with _ | ⟨reply, later⟩
    · simp [getBearing, Wire.endTransmission, Wire.beginTransmission, Wire.write,
        Wire.requestFrom, TWO_BYTES, ha2, CMPS14_I2C_ADDRESS, BEARING_Register]
    · rcases reply with _ | ⟨b, _ | ⟨c, _ | ⟨d, more⟩⟩⟩
      · simp [getBearing, Wire.endTransmission, Wire.beginTransmission, Wire.write,
          Wire.requestFrom, TWO_BYTES, ha2, CMPS14_I2C_ADDRESS, BEARING_Register]
      · simp [getBearing, Wire.endTransmission, Wire.beginTransmission, Wire.write,
          Wire.requestFrom, TWO_BYTES, ha2, CMPS14_I2C_ADDRESS, BEARING_Register]
      · simp [getBearing, Wire.endTransmission, Wire.beginTransmission, Wire.write,
          Wire.requestFrom, Wire.read, TWO_BYTES, ha2, CMPS14_I2C_ADDRESS, BEARING_Register]
      · have hlen : (more.length : Int) + 1 + 1 + 1 ≠ 2 := by omega
        simp [getBearing, Wire.endTransmission, Wire.beginTransmission, Wire.write,
          Wire.requestFrom, TWO_BYTES, ha2, CMPS14_I2C_ADDRESS, BEARING_Register, hlen]
  · simp only [getBearing, Wire.endTransmission, Wire.beginTransmission, Wire.write, ha,
      CMPS14_I2C_ADDRESS, BEARING_Register, ne_eq, not_false_eq_true, if_true,
      List.append_assoc, List.singleton_append, List.append_nil]
    rfl

theorem handleEnableMagCalib_terminal (s : Board) :
    (handleEnableMagCalib s).2.terminal =
      s.terminal ++ nackMessage (s.wire.acks.getD 0 0) ++ nackMessage (s.wire.acks.getD 1 0) ++
        nackMessage (s.wire.acks.getD 2 0) ++ nackMessage (s.wire.acks.getD 3 0) := by
  simp [handleEnableMagCalib, initCMPSconfig, List.head?_eq_getElem?]

theorem handleEnableAccelCalib_terminal (s : Board) :
    (handleEnableAccelCalib s).2.terminal =
      s.terminal ++ nackMessage (s.wire.acks.getD 0 0) ++ nackMessage (s.wire.acks.getD 1 0) ++
        nackMessage (s.wire.acks.getD 2 0) ++ nackMessage (s.wire.acks.getD 3 0) := by
  simp [handleEnableAccelCalib, initCMPSconfig, List.head?_eq_getElem?]

theorem handleEnableGyroCalib_terminal (s : Board) :
    (handleEnableGyroCalib s).2.terminal =
      s.terminal ++ nackMessage (s.wire.acks.getD 0 0) ++ nackMessage (s.wire.acks.getD 1 0) ++
        nackMessage (s.wire.acks.getD 2 0) ++ nackMessage (s.wire.acks.getD 3 0) := by
  simp [handleEnableGyroCalib, initCMPSconfig, List.head?_eq_getElem?]

theorem disableCalibration_terminal (s : Board) :
    (disableCalibration s).terminal =
      s.terminal ++ nackMessage (s.wire.acks.getD 0 0) ++ nackMessage (s.wire.acks.getD 1 0) ++
        nackMessage (s.wire.acks.getD 2 0) ++ ["Stopping auto calibration\n"] ++
        nackMessage (s.wire.acks.getD 3 0) := by
  simp [disableCalibration, List.head?_eq_getElem?]

theorem writeToCMPS14_terminal2 (n : Nat) (s : Board) :
    (writeToCMPS14 n s).terminal = s.terminal ++ nackMessage (s.wire.acks.getD 0 0) := by
  simp [List.head?_eq_getElem?]

/-! ## Lemmas on windings, boundaries and congruent readings -/

theorem roundTimes_zero (d : Frac) : roundTimes 0 d = 0 := by
  simp [roundTimes, Frac.mul, toFloat, fpRound, round]

theorem boundary_step (Q i : Nat) (hi : i + 1 = Q) (h1 : 79 ≤ Q) (h2 : Q ≤ 102) :
    |roundTimes i (delta Q) - ((Q : Int) - 90)| ≤ 1 := by
  have h := roundTimes_nearest Q i (by omega) (by omega)
  rw [abs_le] at h ⊢
  have hc : (i : Int) * ((Q : Int) - 90) = ((Q : Int) - 1) * ((Q : Int) - 90) := by
    rw [← hi]; push_cast; ring
  rw [hc] at h
  generalize roundTimes i (delta Q) = r at h ⊢
  clear hc hi
  interval_cases Q <;> simp at h <;> omega

theorem windings_spec (n e s w : Int) :
    (MOD360 (e - n)).toNat + (MOD360 (s - e)).toNat + (MOD360 (w - s)).toNat +
      (MOD360 (n - w)).toNat = 360 * windings n e s w ∧ windings n e s w ≤ 3 := by
  unfold windings
  simp only [ MOD360_eq_emod]
  omega

theorem count_calcOffsetsWrites_windings (n e s w : Int) (j : Int) (hj0 : 0 ≤ j)
    (hj1 : j < 360) :
    ((calcOffsetsWrites n e s w).map Prod.fst).count j = windings n e s w := by
  obtain ⟨hk, -⟩ := windings_spec n e s w
  generalize windings n e s w = k at hk ⊢
  rw [calcOffsetsWrites_fst, List.count_append, List.count_append, List.count_append,
    count_quadrantIndices n _ (quadrantSize_le _), count_quadrantIndices e _ (quadrantSize_le _),
    count_quadrantIndices s _ (quadrantSize_le _), count_quadrantIndices w _ (quadrantSize_le _)]
  simp only [ MOD360_eq_emod] at hk ⊢
  split_ifs <;> omega

/-- An index that some assignment names gets an entry that does not depend on the card before. -/
theorem writeAll_independent (ws : List (Int × Int)) (c1 c2 : Card) (j : Int)
    (hj : j ∈ ws.map Prod.fst) : writeAll ws c1 j = writeAll ws c2 j := by
  induction ws using List.reverseRecOn with
  | nil => simp at hj
  | append_singleton ws w ih =>
    rw [writeAll_concat, writeAll_concat]
    by_cases hw : j = w.1
    · subst hw
      simp
    · rw [Function.update_noteq hw, Function.update_noteq hw]
      simp only [List.map_append, List.map_cons, List.map_nil, List.mem_append,
        List.mem_singleton] at hj
      rcases hj with hj | hj
      · exact ih hj
      · exact absurd hj hw

theorem fillQuadrant_congr (first base first2 base2 : Int) (Q : Nat)
    (h1 : first % 360 = first2 % 360) (h2 : base % 360 = base2 % 360) (card : Card) :
    fillQuadrant first base Q card = fillQuadrant first2 base2 Q card := by
  unfold fillQuadrant
  congr 1
  funext c i
  have e1 : MOD360 (first + i) = MOD360 (first2 + i) := by
    rw [ MOD360_eq_emod, MOD360_eq_emod]; omega
  have e2 : MOD360 (base + roundTimes i (delta Q)) = MOD360 (base2 + roundTimes i (delta Q)) := by
    rw [ MOD360_eq_emod, MOD360_eq_emod]; omega
  rw [e1, e2]

/-- The card that `calcOffsets` builds depends on the readings modulo 360 only. -/
theorem calcOffsets_congr (n e s w n2 e2 s2 w2 : Int) (hn : n % 360 = n2 % 360)
    (he : e % 360 = e2 % 360) (hs : s % 360 = s2 % 360) (hw : w % 360 = w2 % 360)
    (card : Card) : calcOffsets n e s w card = calcOffsets n2 e2 s2 w2 card := by
  have q1 : (MOD360 (e - n)).toNat = (MOD360 (e2 - n2)).toNat := by
    rw [ MOD360_eq_emod, MOD360_eq_emod]; omega
  have q2 : (MOD360 (s - e)).toNat = (MOD360 (s2 - e2)).toNat := by
    rw [ MOD360_eq_emod, MOD360_eq_emod]; omega
  have q3 : (MOD360 (w - s)).toNat = (MOD360 (w2 - s2)).toNat := by
    rw [ MOD360_eq_emod, MOD360_eq_emod]; omega
  have q4 : (MOD360 (n - w)).toNat = (MOD360 (n2 - w2)).toNat := by
    rw [ MOD360_eq_emod, MOD360_eq_emod]; omega
  unfold calcOffsets
  simp only [q1, q2, q3, q4]
  rw [fillQuadrant_congr n n n2 n2 _ hn hn, fillQuadrant_congr e (e - 90) e2 (e2 - 90) _ he
    (by omega), fillQuadrant_congr s (s - 180) s2 (s2 - 180) _ hs (by omega),
    fillQuadrant_congr w (w - 270) w2 (w2 - 270) _ hw (by omega)]

theorem calcOffsets_cardinal1 (n e s w : Int) (h : InCircularOrder n e s w) (card : Card) :
    calcOffsets n e s w card (MOD360 n) = MOD360 n := by
  have h0 : 0 < (MOD360 (e - n)).toNat := by have := h.1; omega
  have hq := calcOffsets_quadrant1 n e s w h card 0 h0
  rw [roundTimes_zero] at hq
  simpa using hq

theorem calcOffsets_cardinal2 (n e s w : Int) (h : InCircularOrder n e s w) (card : Card) :
    calcOffsets n e s w card (MOD360 e) = MOD360 (e - 90) := by
  have h0 : 0 < (MOD360 (s - e)).toNat := by have := h.2.1; omega
  have hq := calcOffsets_quadrant2 n e s w h card 0 h0
  rw [roundTimes_zero] at hq
  simpa using hq

theorem calcOffsets_cardinal3 (n e s w : Int) (h : InCircularOrder n e s w) (card : Card) :
    calcOffsets n e s w card (MOD360 s) = MOD360 (s - 180) := by
  have h0 : 0 < (MOD360 (w - s)).toNat := by have := h.2.2.1; omega
  have hq := calcOffsets_quadrant3 n e s w h card 0 h0
  rw [roundTimes_zero] at hq
  simpa using hq

theorem calcOffsets_cardinal4 (n e s w : Int) (h : InCircularOrder n e s w) (card : Card) :
    calcOffsets n e s w card (MOD360 w) = MOD360 (w - 270) := by
  have h0 : 0 < (MOD360 (n - w)).toNat := by have := h.2.2.2.1; omega
  have hq := calcOffsets_quadrant4 n e s w h card 0 h0
  rw [roundTimes_zero] at hq
  simpa using hq

/-- Within about ten degrees of a square quadrant, the last entry of the quadrant is within one
degree of the offset `MOD360(next - target)` that the next cardinal gets. -/
theorem last_entry_near (first next base target : Int) (Q : Nat) (r : Int)
    (hQ : Q = (MOD360 (next - first)).toNat) (hb : base % 360 = (first + 90 - target) % 360)
    (hr : |r - ((Q : Int) - 90)| ≤ 1) :
    circDist (MOD360 (base + r)) (MOD360 (next - target)) ≤ 1 := by
  rw [ MOD360_eq_emod] at hQ
  rw [abs_le] at hr
  unfold circDist
  rw [min_le_iff]
  simp only [ MOD360_eq_emod]
  omega

theorem last_index (first next : Int) (Q : Nat) (hQ : Q = (MOD360 (next - first)).toNat)
    (hpos : 0 < Q) : MOD360 (first + ((Q - 1 : Nat) : Int)) = MOD360 (next - 1) := by
  rw [ MOD360_eq_emod] at hQ
  simp only [ MOD360_eq_emod]
  omega

/-! ## Lemmas by enumeration -/

set_option maxRecDepth 100000 in
theorem HDMmessage_all : ∀ h, h < 360 → IsHDMSentence h (HDMmessage h) := by decide!

set_option maxRecDepth 10000 in
theorem calStatusFields_all : ∀ b, b < 256 →
    (calStatusFields b).1 ≤ 3 ∧ (calStatusFields b).2.1 ≤ 3 ∧ (calStatusFields b).2.2.1 ≤ 3 ∧
    (calStatusFields b).2.2.2 ≤ 3 ∧
    b = 64 * (calStatusFields b).1 + 16 * (calStatusFields b).2.1 +
      4 * (calStatusFields b).2.2.1 + (calStatusFields b).2.2.2 := by decide

/-! ## The bytes of the calibration commands -/

/-- C11. Starting magnetometer calibration puts on the bus, in order and with nothing else in
between, the unlock bytes `0x98`, `0x95`, `0x99`, each written to the command register `0x00`,
and then one transmission with exactly the bytes `0x00`, `0b10000001`: these are all the bus
calls of `handleEnableMagCalib` (through `initCMPSconfig`), and the first bus calls of the `m`
branch of `calibrationMenu`, which then counts down and reads the calibration quality. -/
theorem magCalibration_bytes (s : Board) :
    (handleEnableMagCalib s).2.wire.trace =
      s.wire.trace ++ threeWrites 0x98 0x95 0x99 ++ selectorWrite 0b10000001 ∧
    (calibrationMenu 'm' s).wire.trace =
      s.wire.trace ++ threeWrites 0x98 0x95 0x99 ++ selectorWrite 0b10000001 ++
        List.replicate 40 (BusCall.delay 1000) ++ getCalibrationCalls (s.wire.replies.headD []) ++
        [BusCall.endTransmission, BusCall.delay 100] ∧
    transmissions (threeWrites 0x98 0x95 0x99 ++ selectorWrite 0b10000001) =
      [(0x60, [0x00, 0x98]), (0x60, [0x00, 0x95]), (0x60, [0x00, 0x99]),
        (0x60, [0x00, 0b10000001])] :=
  ⟨handleEnableMagCalib_trace s, calibrationMenu_m_trace s, by decide⟩

/-- C12, refuted as stated. With the first unlock write negatively acknowledged (result `2`),
`handleEnableMagCalib` still answers `{ "result":"OK"}`: the failure is only printed as
`communication error`, and the remaining writes are sent. -/
theorem nack_not_reported :
    (handleEnableMagCalib ⟨⟨[2], [], [], []⟩, []⟩).1 = resultOK ∧
    (handleEnableMagCalib ⟨⟨[2], [], [], []⟩, []⟩).2.terminal = ["communication error\n"] ∧
    transmissions (handleEnableMagCalib ⟨⟨[2], [], [], []⟩, []⟩).2.wire.trace =
      [(0x60, [0x00, 0x98]), (0x60, [0x00, 0x95]), (0x60, [0x00, 0x99]),
        (0x60, [0x00, 0b10000001])] := by
  refine ⟨rfl, ?_, ?_⟩
  · rw [handleEnableMagCalib_terminal]
    decide
  · rw [handleEnableMagCalib_trace]
    decide

/-- C12, amended. A negative acknowledge is not reported to the caller: the procedures return
nothing and the handlers answer `{ "result":"OK"}` whatever the acknowledgments.  Each
negatively acknowledged write only prints `communication error` on the terminal, and the bus
calls are the same whatever the acknowledgments (for `handleDisableCalibration`: the same as
on a fresh bus that acknowledges everything), so every remaining write is still sent and none
is sent again. -/
theorem nack_only_printed (s : Board) (n : Nat) :
    ((writeToCMPS14 n s).wire.trace = s.wire.trace ++ selectorWrite n ∧
      (writeToCMPS14 n s).terminal = s.terminal ++ nackMessage (s.wire.acks.getD 0 0)) ∧
    ((handleEnableMagCalib s).1 = resultOK ∧
      (handleEnableMagCalib s).2.wire.trace =
        s.wire.trace ++ threeWrites 0x98 0x95 0x99 ++ selectorWrite 0b10000001 ∧
      (handleEnableMagCalib s).2.terminal =
        s.terminal ++ nackMessage (s.wire.acks.getD 0 0) ++ nackMessage (s.wire.acks.getD 1 0) ++
          nackMessage (s.wire.acks.getD 2 0) ++ nackMessage (s.wire.acks.getD 3 0)) ∧
    ((handleEnableAccelCalib s).1 = resultOK ∧
      (handleEnableAccelCalib s).2.wire.trace =
        s.wire.trace ++ threeWrites 0x98 0x95 0x99 ++ selectorWrite 0b10000010 ∧
      (handleEnableAccelCalib s).2.terminal =
        s.terminal ++ nackMessage (s.wire.acks.getD 0 0) ++ nackMessage (s.wire.acks.getD 1 0) ++
          nackMessage (s.wire.acks.getD 2 0) ++ nackMessage (s.wire.acks.getD 3 0)) ∧
    ((handleEnableGyroCalib s).1 = resultOK ∧
      (handleEnableGyroCalib s).2.wire.trace =
        s.wire.trace ++ threeWrites 0x98 0x95 0x99 ++ selectorWrite 0b10000100 ∧
      (handleEnableGyroCalib s).2.terminal =
        s.terminal ++ nackMessage (s.wire.acks.getD 0 0) ++ nackMessage (s.wire.acks.getD 1 0) ++
          nackMessage (s.wire.acks.getD 2 0) ++ nackMessage (s.wire.acks.getD 3 0)) ∧
    ((handleDisableCalibration s).1 = resultOK ∧
      (handleDisableCalibration s).2.wire.trace =
        s.wire.trace ++ (handleDisableCalibration ⟨⟨[], [], [], []⟩, []⟩).2.wire.trace ∧
      (handleDisableCalibration s).2.terminal =
        s.terminal ++ nackMessage (s.wire.acks.getD 0 0) ++ nackMessage (s.wire.acks.getD 1 0) ++
          nackMessage (s.wire.acks.getD 2 0) ++ ["Stopping auto calibration\n"] ++
          nackMessage (s.wire.acks.getD 3 0)) :=
  ⟨⟨by rw [writeToCMPS14_trace]; rfl, writeToCMPS14_terminal2 n s⟩,
    ⟨rfl, handleEnableMagCalib_trace s, handleEnableMagCalib_terminal s⟩,
    ⟨rfl, handleEnableAccelCalib_trace s, handleEnableAccelCalib_terminal s⟩,
    ⟨rfl, handleEnableGyroCalib_trace s, handleEnableGyroCalib_terminal s⟩,
    ⟨rfl, disableCalibration_fresh s, disableCalibration_terminal s⟩⟩

/-- C13. Saving the profile is exactly three writes to the command register `0x00`, carrying
`0xF0`, `0xF5`, `0xF6` in that order, and erasing it exactly three, carrying `0xE0`, `0xE5`,
`0xE2`; neither contains a write of an unlock byte, the save, erase and unlock sequences are
pairwise different, and the `s` and `e` branches of `calibrationMenu` make the same
transmissions as `handleSaveCalibration` and `handleResetCalibration` (the menu then ends with
its closing `endTransmission()`, which has no bytes to send). -/
theorem profile_bytes (s : Board) :
    (handleSaveCalibration s).2.wire.trace = s.wire.trace ++ threeWrites 0xF0 0xF5 0xF6 ∧
    (handleResetCalibration s).2.wire.trace = s.wire.trace ++ threeWrites 0xE0 0xE5 0xE2 ∧
    (calibrationMenu 's' s).wire.trace =
      s.wire.trace ++ threeWrites 0xF0 0xF5 0xF6 ++
        [BusCall.endTransmission, BusCall.delay 100] ∧
    (calibrationMenu 'e' s).wire.trace =
      s.wire.trace ++ threeWrites 0xE0 0xE5 0xE2 ++
        [BusCall.delay 500, BusCall.endTransmission, BusCall.delay 100] ∧
    transmissions (threeWrites 0xF0 0xF5 0xF6) =
      [(0x60, [0x00, 0xF0]), (0x60, [0x00, 0xF5]), (0x60, [0x00, 0xF6])] ∧
    transmissions (threeWrites 0xE0 0xE5 0xE2) =
      [(0x60, [0x00, 0xE0]), (0x60, [0x00, 0xE5]), (0x60, [0x00, 0xE2])] ∧
    transmissions (threeWrites 0xF0 0xF5 0xF6 ++ [BusCall.endTransmission, BusCall.delay 100]) =
      transmissions (threeWrites 0xF0 0xF5 0xF6) ∧
    transmissions (threeWrites 0xE0 0xE5 0xE2 ++
        [BusCall.delay 500, BusCall.endTransmission, BusCall.delay 100]) =
      transmissions (threeWrites 0xE0 0xE5 0xE2) ∧
    (0x60, [0x00, 0x98]) ∉ transmissions (threeWrites 0xF0 0xF5 0xF6) ∧
    (0x60, [0x00, 0x95]) ∉ transmissions (threeWrites 0xF0 0xF5 0xF6) ∧
    (0x60, [0x00, 0x99]) ∉ transmissions (threeWrites 0xF0 0xF5 0xF6) ∧
    (0x60, [0x00, 0x98]) ∉ transmissions (threeWrites 0xE0 0xE5 0xE2) ∧
    (0x60, [0x00, 0x95]) ∉ transmissions (threeWrites 0xE0 0xE5 0xE2) ∧
    (0x60, [0x00, 0x99]) ∉ transmissions (threeWrites 0xE0 0xE5 0xE2) ∧
    transmissions (threeWrites 0xF0 0xF5 0xF6) ≠ transmissions (threeWrites 0xE0 0xE5 0xE2) ∧
    transmissions (threeWrites 0xF0 0xF5 0xF6) ≠ transmissions (threeWrites 0x98 0x95 0x99) ∧
    transmissions (threeWrites 0xE0 0xE5 0xE2) ≠ transmissions (threeWrites 0x98 0x95 0x99) :=
  ⟨handleSaveCalibration_trace s, handleResetCalibration_trace s, calibrationMenu_s_trace s,
    calibrationMenu_e_trace s, by
      refine ⟨?_, ?_, ?_, ?_, ?_, ?_, ?_, ?_, ?_, ?_, ?_, ?_, ?_⟩ <;> decide⟩

/-- C14, the code at the failing input. After the unlock writes `disableCalibration()` begins a
transmission and writes the stop selector `0b10000000` without first writing the command
register `0x00`: its last transmission has the single byte `0x80`, where the `x` branch of
`calibrationMenu` sends the bytes `0x00`, `0x80`. -/
theorem disableCalibration_bytes (s : Board) :
    (disableCalibration s).wire.trace =
      s.wire.trace ++ threeWrites 0x98 0x95 0x99 ++
        [BusCall.beginTransmission 0x60, BusCall.delay 20, BusCall.write 0b10000000,
          BusCall.endTransmission, BusCall.delay 100] ∧
    transmissions (threeWrites 0x98 0x95 0x99 ++
        [BusCall.beginTransmission 0x60, BusCall.delay 20, BusCall.write 0b10000000,
          BusCall.endTransmission, BusCall.delay 100]) =
      [(0x60, [0x00, 0x98]), (0x60, [0x00, 0x95]), (0x60, [0x00, 0x99]), (0x60, [0x80])] ∧
    (calibrationMenu 'x' s).wire.trace =
      s.wire.trace ++ threeWrites 0x98 0x95 0x99 ++ selectorWrite 0b10000000 ++
        getCalibrationCalls (s.wire.replies.headD []) ++
        [BusCall.endTransmission, BusCall.delay 100] ∧
    transmissions (threeWrites 0x98 0x95 0x99 ++ selectorWrite 0b10000000) =
      [(0x60, [0x00, 0x98]), (0x60, [0x00, 0x95]), (0x60, [0x00, 0x99]),
        (0x60, [0x00, 0x80])] :=
  ⟨disableCalibration_trace s, by decide, calibrationMenu_x_trace s, by decide⟩

/-- C15. For every calibration byte `b` in `0..255` the four fields that `handleGetCalStatus`
decodes are each in `0..3` and determine the byte: `b = 64*sys + 16*gyro + 4*accel + mag`. -/
theorem calStatusFields_spec (b : Nat) (hb : b < 256) :
    (calStatusFields b).1 ≤ 3 ∧ (calStatusFields b).2.1 ≤ 3 ∧ (calStatusFields b).2.2.1 ≤ 3 ∧
    (calStatusFields b).2.2.2 ≤ 3 ∧
    b = 64 * (calStatusFields b).1 + 16 * (calStatusFields b).2.1 +
      4 * (calStatusFields b).2.2.1 + (calStatusFields b).2.2.2 :=
  calStatusFields_all b hb

/-- Witness of C15 at the byte `0xE7`, whose fields are `3, 2, 1, 3`. -/
theorem calStatusFields_spec_witness :
    0xE7 < 256 ∧ calStatusFields 0xE7 = (3, 2, 1, 3) ∧
    0xE7 = 64 * (calStatusFields 0xE7).1 + 16 * (calStatusFields 0xE7).2.1 +
      4 * (calStatusFields 0xE7).2.2.1 + (calStatusFields 0xE7).2.2.2 :=
  ⟨by decide, by decide, (calStatusFields_spec 0xE7 (by decide)).2.2.2.2⟩

/-! ## The settle delay -/

/-- C16, refuted as stated. On a successful read `getBearing()` makes the bus calls
`beginTransmission`, `write`, `endTransmission`, `requestFrom`, `read`, `read`: its
`endTransmission` is followed by the read request, not by a delay. -/
theorem getBearing_no_delay :
    (getBearing ⟨[0], [[14, 15]], [], []⟩).2.trace =
      [BusCall.beginTransmission 0x60, BusCall.write 2, BusCall.endTransmission,
        BusCall.requestFrom 0x60 2, BusCall.read, BusCall.read] ∧
    settled (getBearing ⟨[0], [[14, 15]], [], []⟩).2.trace = false := by
  decide

/-- C16, amended. In the bus calls of `writeToCMPS14`, `getCalibration`, `getVersion`,
`disableCalibration` and `initCMPSconfig` followed by the selector write (the three enable
handlers), every `endTransmission` is immediately followed by `delay(100)`: they end their
transmissions through the procedure `endTransmission()`.  `getBearing()` calls
`Wire.endTransmission()` itself and goes on, or returns, without a delay. -/
theorem settle_delay (s : Board) (n : Nat) :
    (∃ calls, (writeToCMPS14 n s).wire.trace = s.wire.trace ++ calls ∧ settled calls = true) ∧
    (∃ calls, (getCalibration s).2.wire.trace = s.wire.trace ++ calls ∧
      settled calls = true) ∧
    (∃ calls, (getVersion s).2.wire.trace = s.wire.trace ++ calls ∧ settled calls = true) ∧
    (∃ calls, (disableCalibration s).wire.trace = s.wire.trace ++ calls ∧
      settled calls = true) ∧
    (∃ calls, (handleEnableMagCalib s).2.wire.trace = s.wire.trace ++ calls ∧
      settled calls = true) ∧
    (∃ calls, (handleEnableAccelCalib s).2.wire.trace = s.wire.trace ++ calls ∧
      settled calls = true) ∧
    (∃ calls, (handleEnableGyroCalib s).2.wire.trace = s.wire.trace ++ calls ∧
      settled calls = true) ∧
    (∃ calls, (getBearing s.wire).2.trace = s.wire.trace ++ calls ∧ settled calls = false) := by
  refine ⟨⟨_, writeToCMPS14_trace n s, rfl⟩, ⟨_, getCalibration_trace s, ?_⟩,
    ⟨_, getVersion_trace s, rfl⟩,
    ⟨_, by rw [disableCalibration_trace, List.append_assoc], by decide⟩,
    ⟨_, by rw [handleEnableMagCalib_trace, List.append_assoc], by decide⟩,
    ⟨_, by rw [handleEnableAccelCalib_trace, List.append_assoc], by decide⟩,
    ⟨_, by rw [handleEnableGyroCalib_trace, List.append_assoc], by decide⟩,
    ⟨_, by rw [getBearing_trace, List.append_assoc], ?_⟩⟩
  · unfold getCalibrationCalls
    split_ifs <;> rfl
  · split_ifs <;> rfl

/-! ## Quadrant boundaries, windings and the square card -/

/-- C17, refuted as stated. The readings `0, 120, 210, 300` are in circular order; the last
entry of the first quadrant is `compassCard[119] = 40` and the entry at the east reading is
`compassCard[120] = 30`: they are 10 degrees apart. -/
theorem boundary_jump_counterexample :
    InCircularOrder 0 120 210 300 ∧
    calcOffsets 0 120 210 300 initialCard (MOD360 (120 - 1)) = 40 ∧
    calcOffsets 0 120 210 300 initialCard (MOD360 120) = MOD360 (120 - (0 + 90)) ∧
    circDist (calcOffsets 0 120 210 300 initialCard (MOD360 (120 - 1)))
      (calcOffsets 0 120 210 300 initialCard (MOD360 120)) = 10 := by
  have h1 : calcOffsets 0 120 210 300 initialCard (MOD360 (120 - 1)) = 40 := by
    have h := calcOffsets_quadrant1 0 120 210 300 (by decide) initialCard 119 (by decide)
    have hr : roundTimes 119 (delta (MOD360 (120 - 0)).toNat) = 40 := by decide
    rw [hr] at h
    exact h
  have h2 : calcOffsets 0 120 210 300 initialCard (MOD360 120) = MOD360 (120 - (0 + 90)) :=
    calcOffsets_cardinal2 0 120 210 300 (by decide) initialCard
  refine ⟨by decide, h1, h2, ?_⟩
  rw [h1, h2]
  decide

/-- C17, amended. For readings in strictly increasing circular order and each quadrant
`(first, next, T)`, the entry at a cardinal's raw reading is exactly that cardinal's offset,
`compassCard[MOD360(first)] = MOD360(first - T)` and
`compassCard[MOD360(next)] = MOD360(next - (T+90))`; and when the quadrant's size is between
79 and 102, the entry at the quadrant's last raw heading, `compassCard[MOD360(next-1)]`, is
within 1 degree, circularly, of the entry at the next cardinal. -/
theorem quadrant_boundary (n e s w : Int) (h : InCircularOrder n e s w) (card : Card)
    (first next T : Int)
    (hq : (first, next, T) ∈ [(n, e, (0 : Int)), (e, s, 90), (s, w, 180), (w, n, 270)]) :
    calcOffsets n e s w card (MOD360 first) = MOD360 (first - T) ∧
    calcOffsets n e s w card (MOD360 next) = MOD360 (next - (T + 90)) ∧
    (79 ≤ (MOD360 (next - first)).toNat → (MOD360 (next - first)).toNat ≤ 102 →
      circDist (calcOffsets n e s w card (MOD360 (next - 1)))
        (calcOffsets n e s w card (MOD360 next)) ≤ 1) := by
  have c1 := calcOffsets_cardinal1 n e s w h card
  have c2 := calcOffsets_cardinal2 n e s w h card
  have c3 := calcOffsets_cardinal3 n e s w h card
  have c4 := calcOffsets_cardinal4 n e s w h card
  have m360 : ∀ x : Int, MOD360 (x - 360) = MOD360 x := by
    intro x; rw [ MOD360_eq_emod, MOD360_eq_emod]; omega
  simp only [List.mem_cons, Prod.mk.injEq, List.mem_singleton, List.mem_nil_iff,
    or_false] at hq
  rcases hq with ⟨rfl, rfl, rfl⟩ | ⟨rfl, rfl, rfl⟩ | ⟨rfl, rfl, rfl⟩ | ⟨rfl, rfl, rfl⟩
  · refine ⟨by rw [c1, sub_zero], by rw [c2]; norm_num, fun h1 h2 => ?_⟩
    have hl := calcOffsets_quadrant1 first next s w h card ((MOD360 (next - first)).toNat - 1)
      (by omega)
    rw [last_index first next _ rfl (by omega)] at hl
    rw [hl, c2]
    exact last_entry_near first next first 90 _ _ rfl (by omega)
      (boundary_step _ _ (by omega) h1 h2)
  · refine ⟨by rw [c2], by rw [c3]; norm_num, fun h1 h2 => ?_⟩
    have hl := calcOffsets_quadrant2 n first next w h card ((MOD360 (next - first)).toNat - 1)
      (by omega)
    rw [last_index first next _ rfl (by omega)] at hl
    rw [hl, c3]
    exact last_entry_near first next (first - 90) 180 _ _ rfl (by omega)
      (boundary_step _ _ (by omega) h1 h2)
  · refine ⟨by rw [c3], by rw [c4]; norm_num, fun h1 h2 => ?_⟩
    have hl := calcOffsets_quadrant3 n e first next h card ((MOD360 (next - first)).toNat - 1)
      (by omega)
    rw [last_index first next _ rfl (by omega)] at hl
    rw [hl, c4]
    exact last_entry_near first next (first - 180) 270 _ _ rfl (by omega)
      (boundary_step _ _ (by omega) h1 h2)
  · refine ⟨by rw [c4], by rw [c1]; norm_num; exact (m360 next).symm, fun h1 h2 => ?_⟩
    have hl := calcOffsets_quadrant4 next e s first h card ((MOD360 (next - first)).toNat - 1)
      (by omega)
    rw [last_index first next _ rfl (by omega)] at hl
    rw [hl, c1, ← m360 next]
    exact last_entry_near first next (first - 270) 360 _ _ rfl (by omega)
      (boundary_step _ _ (by omega) h1 h2)

/-- Witness of the amended C17 at the readings `10, 95, 200, 280` and the quadrant from north to
east, whose size is 85. -/
theorem quadrant_boundary_witness :
    InCircularOrder 10 95 200 280 ∧ 79 ≤ (MOD360 (95 - 10)).toNat ∧
    (MOD360 (95 - 10)).toNat ≤ 102 ∧
    circDist (calcOffsets 10 95 200 280 initialCard (MOD360 (95 - 1)))
      (calcOffsets 10 95 200 280 initialCard (MOD360 95)) ≤ 1 :=
  ⟨by decide, by decide, by decide,
    (quadrant_boundary 10 95 200 280 (by decide) initialCard 10 95 0 (by simp)).2.2 (by decide)
      (by decide)⟩

/-- C19. For all readings the four quadrant sizes sum to `360 * k` with `k` in `0..3`, and
`calcOffsets` assigns each of the 360 indices exactly `k` times.  `k = 0` exactly when the four
readings are congruent modulo 360; otherwise every entry is assigned and the card that results
does not depend on the card before; and some (then every) index is assigned more than once
exactly when `k ≥ 2`, as for the readings `0, 180, 90, 270`, where `k = 2`. -/
theorem calcOffsets_windings (n e s w : Int) :
    (MOD360 (e - n)).toNat + (MOD360 (s - e)).toNat + (MOD360 (w - s)).toNat +
      (MOD360 (n - w)).toNat = 360 * windings n e s w ∧
    windings n e s w ≤ 3 ∧
    (∀ j : Int, 0 ≤ j → j < 360 →
      ((calcOffsetsWrites n e s w).map Prod.fst).count j = windings n e s w) ∧
    (windings n e s w = 0 ↔ (n % 360 = e % 360 ∧ e % 360 = s % 360 ∧ s % 360 = w % 360)) ∧
    (windings n e s w ≠ 0 → ∀ (c1 c2 : Card) (j : Int), 0 ≤ j → j < 360 →
      calcOffsets n e s w c1 j = calcOffsets n e s w c2 j) ∧
    ((∃ j : Int, 0 ≤ j ∧ j < 360 ∧ 2 ≤ ((calcOffsetsWrites n e s w).map Prod.fst).count j) ↔
      2 ≤ windings n e s w) ∧
    windings 0 180 90 270 = 2 := by
  obtain ⟨hsum, hle⟩ := windings_spec n e s w
  have hcount := count_calcOffsetsWrites_windings n e s w
  refine ⟨hsum, hle, hcount, ?_, ?_, ?_, by decide⟩
  · simp only [ MOD360_eq_emod] at hsum
    omega
  · intro hk c1 c2 j hj0 hj1
    rw [calcOffsets_eq_writeAll, calcOffsets_eq_writeAll]
    apply writeAll_independent
    apply List.count_pos_iff.mp
    rw [hcount j hj0 hj1]
    omega
  · constructor
    · rintro ⟨j, hj0, hj1, hj2⟩
      rw [hcount j hj0 hj1] at hj2
      exact hj2
    · intro hk
      exact ⟨0, le_refl 0, by decide, by rw [hcount 0 (le_refl 0) (by decide)]; exact hk⟩

/-- Witness of C19 at the readings `0, 180, 90, 270`: the quadrants go round twice, so the card
that results is the same from the initial card and from a card of `77`s. -/
theorem calcOffsets_windings_witness :
    windings 0 180 90 270 ≠ 0 ∧
    calcOffsets 0 180 90 270 initialCard 5 = calcOffsets 0 180 90 270 (fun _ => 77) 5 :=
  ⟨by decide,
    (calcOffsets_windings 0 180 90 270).2.2.2.2.1 (by decide) initialCard (fun _ => 77) 5
      (by decide) (by decide)⟩

/-- C20. For a mounting offset `m` in `[0,360)`, `calcOffsets(m, m+90, m+180, m+270)` sets each
of the 360 entries to `m`, whether the readings are passed as they are or reduced modulo 360;
in particular `calcOffsets(0,90,180,270)` gives the card of `resetCompassCard()`. -/
theorem calcOffsets_mounting_offset (m : Int) (hm0 : 0 ≤ m) (hm1 : m < 360) (card : Card)
    (j : Int) (hj0 : 0 ≤ j) (hj1 : j < 360) :
    calcOffsets m (m + 90) (m + 180) (m + 270) card j = m ∧
    calcOffsets m (MOD360 (m + 90)) (MOD360 (m + 180)) (MOD360 (m + 270)) card j = m ∧
    calcOffsets 0 90 180 270 card j = resetCompassCard card j := by
  have hm : MOD360 m = m := by rw [ MOD360_eq_emod]; omega
  have h1 := calcOffsets_square m card j hj0 hj1
  rw [hm] at h1
  refine ⟨h1, ?_, ?_⟩
  · rw [calcOffsets_congr m (MOD360 (m + 90)) (MOD360 (m + 180)) (MOD360 (m + 270))
      m (m + 90) (m + 180) (m + 270) rfl (by rw [ MOD360_eq_emod]; omega)
      (by rw [ MOD360_eq_emod]; omega) (by rw [ MOD360_eq_emod]; omega)]
    exact h1
  · rw [resetCompassCard_entry card j hj0 hj1]
    exact calcOffsets_square 0 card j hj0 hj1

/-- Witness of C20 at the mounting offset `300` and index `17`. -/
theorem calcOffsets_mounting_offset_witness :
    (0 : Int) ≤ 300 ∧ (300 : Int) < 360 ∧ (0 : Int) ≤ 17 ∧ (17 : Int) < 360 ∧
    calcOffsets 300 (300 + 90) (300 + 180) (300 + 270) initialCard 17 = 300 :=
  ⟨by decide, by decide, by decide, by decide,
    (calcOffsets_mounting_offset 300 (by decide) (by decide) initialCard 17 (by decide)
      (by decide)).1⟩

/-! ## The HDM sentence -/

/-- C18. For every heading in `0..359`, `HDMmessage(heading)` and `HDMmessage::update(heading)`
produce `$HCHDM,` then the heading as three zero-padded decimal digits, then `,M*` and exactly
two hexadecimal digits that encode the XOR of the characters strictly between `$` and `*`;
hence XOR-ing those characters with that value gives 0, and the string has length 15. -/
theorem HDMmessage_sentence (heading : Nat) (h : heading < 360) (old : List Char) :
    IsHDMSentence heading (HDMmessage heading) ∧
    HDMmessage.update heading old = HDMmessage heading :=
  ⟨HDMmessage_all heading h, rfl⟩

/-- Witness of C18 at the heading `45`: the sentence is `$HCHDM,045,M*36`. -/
theorem HDMmessage_sentence_witness :
    45 < 360 ∧ HDMmessage 45 = "$HCHDM,045,M*36".toList ∧ IsHDMSentence 45 (HDMmessage 45) :=
  ⟨by decide, by decide, (HDMmessage_sentence 45 (by decide) []).1⟩

/-! ## Lemmas on `htmlEncode` -/

theorem escape_cases (c : Char) :
    (c ∈ specialChars ∧ escape c ∈ entities) ∨ (c ∉ specialChars ∧ escape c = [c]) := by
  unfold escape
  split_ifs with h1 h2 h3 h4 h5 h6
  · exact Or.inl ⟨by rw [h1]; decide, by decide⟩
  · exact Or.inl ⟨by rw [h2]; decide, by decide⟩
  · exact Or.inl ⟨by rw [h3]; decide, by decide⟩
  · exact Or.inl ⟨by rw [h4]; decide, by decide⟩
  · exact Or.inl ⟨by rw [h5]; decide, by decide⟩
  · exact Or.inl ⟨by rw [h6]; decide, by decide⟩
  · refine Or.inr ⟨?_, rfl⟩
    simp only [specialChars, List.mem_cons, List.mem_singleton, List.mem_nil_iff, or_false,
      not_or]
    exact ⟨h1, h2, h3, h4, h5, h6⟩

theorem entity_no_markup (e : List Char) (he : e ∈ entities) (c : Char) (hc : c ∈ e) :
    c ∉ ['<', '>', quoteChar, aposChar, '/'] := by
  revert c
  revert e
  decide

theorem entity_shape (e : List Char) (he : e ∈ entities) :
    e.head? = some '&' ∧ '&' ∉ e.tail := by
  revert e
  decide

theorem htmlEncode_cons (c : Char) (rest : List Char) (hc : c ≠ NUL) :
    htmlEncode (c :: rest) = escape c ++ htmlEncode rest := by
  simp [htmlEncode, hc]

theorem htmlEncode_no_markup (s : List Char) (c : Char) (hc : c ∈ htmlEncode s) :
    c ∉ ['<', '>', quoteChar, aposChar, '/'] := by
  induction s with
  | nil => simp [htmlEncode] at hc
  | cons c0 rest ih =>
    by_cases h0 : c0 = NUL
    · simp [htmlEncode, h0] at hc
    · rw [htmlEncode_cons c0 rest h0, List.mem_append] at hc
      rcases hc with hc | hc
      · rcases escape_cases c0 with ⟨-, he⟩ | ⟨hn, he⟩
        · exact entity_no_markup _ he c hc
        · rw [he, List.mem_singleton] at hc
          subst hc
          intro hm
          apply hn
          simp only [specialChars, List.mem_cons, List.mem_singleton, List.mem_nil_iff,
            or_false] at hm ⊢
          tauto
      · exact ih hc

/-- Text that has `&` at its first position only, and only when it is an entity, can be put
before a text whose `&`s start entities. -/
theorem ampersands_append (a t : List Char)
    (ha : (a ∈ entities) ∨ ('&' ∉ a)) (ht : AmpersandsStartEntities t) :
    AmpersandsStartEntities (a ++ t) := by
  intro i hi
  rcases Nat.lt_or_ge i a.length with hlt | hge
  · rw [List.getElem?_append_left hlt] at hi
    have hmem : '&' ∈ a := List.getElem?_mem hi
    rcases ha with ha | ha
    · obtain ⟨hh, ht2⟩ := entity_shape a ha
      rcases a with _ | ⟨x, tl⟩
      · simp at hlt
      · rcases i with _ | j
        · exact ⟨x :: tl, ha, by simp⟩
        · rw [List.getElem?_cons_succ] at hi
          exact absurd (List.getElem?_mem hi) ht2
    · exact absurd hmem ha
  · rw [List.getElem?_append_right hge] at hi
    obtain ⟨e, he, hte⟩ := ht (i - a.length) hi
    refine ⟨e, he, ?_⟩
    have hd : (a ++ t).drop i = t.drop (i - a.length) := by
      rw [List.drop_append_eq_append_drop, List.drop_of_length_le hge, List.nil_append]
    rw [hd, hte]

theorem htmlEncode_ampersands (s : List Char) : AmpersandsStartEntities (htmlEncode s) := by
  induction s with
  | nil => intro i hi; simp [htmlEncode] at hi
  | cons c0 rest ih =>
    by_cases h0 : c0 = NUL
    · intro i hi
      simp [htmlEncode, h0] at hi
    · rw [htmlEncode_cons c0 rest h0]
      apply ampersands_append _ _ _ ih
      rcases escape_cases c0 with ⟨-, he⟩ | ⟨hn, he⟩
      · exact Or.inl he
      · right
        rw [he, List.mem_singleton]
        intro hamp
        apply hn
        rw [← hamp]
        decide

theorem htmlEncode_plain (s : List Char) (hnul : NUL ∉ s) (hs : ∀ c ∈ s, c ∉ specialChars) :
    htmlEncode s = s := by
  induction s with
  | nil => rfl
  | cons c0 rest ih =>
    have h0 : c0 ≠ NUL := fun h => hnul (by rw [h]; exact List.mem_cons_self _ _)
    rw [htmlEncode_cons c0 rest h0]
    rcases escape_cases c0 with ⟨hsp, -⟩ | ⟨-, he⟩
    · exact absurd hsp (hs c0 (List.mem_cons_self _ _))
    · rw [he, ih (fun h => hnul (List.mem_cons_of_mem _ h))
        (fun c hc => hs c (List.mem_cons_of_mem _ hc))]
      rfl

/-! ## HTML encoding -/

/-- C21. For every string `s` without a NUL character, `htmlEncode(s)` contains none of the
characters `<`, `>`, the double quote, the single quote and `/`; every `&` in it starts one of
the six entities `&amp;`, `&lt;`, `&gt;`, `&quot;`, `&#x27;`, `&#x2F;`; and `htmlEncode(s) = s`
when `s` contains none of the six special characters. -/
theorem htmlEncode_spec (s : List Char) (hnul : NUL ∉ s) :
    (∀ c ∈ htmlEncode s, c ∉ ['<', '>', quoteChar, aposChar, '/']) ∧
    AmpersandsStartEntities (htmlEncode s) ∧
    ((∀ c ∈ s, c ∉ specialChars) → htmlEncode s = s) :=
  ⟨fun c hc => htmlEncode_no_markup s c hc, htmlEncode_ampersands s,
    fun hs => htmlEncode_plain s hnul hs⟩

/-- Witness of C21 at the strings `<b>T&C</b>`, which is encoded as
`&lt;b&gt;T&amp;C&lt;&#x2F;b&gt;`, and `plain text`, which is left as it is. -/
theorem htmlEncode_spec_witness :
    NUL ∉ "<b>T&C</b>".toList ∧
    htmlEncode "<b>T&C</b>".toList = "&lt;b&gt;T&amp;C&lt;&#x2F;b&gt;".toList ∧
    AmpersandsStartEntities (htmlEncode "<b>T&C</b>".toList) ∧
    htmlEncode "plain text".toList = "plain text".toList :=
  ⟨by decide, by decide, (htmlEncode_spec "<b>T&C</b>".toList (by decide)).2.1,
    (htmlEncode_spec "plain text".toList (by decide)).2.2 (by decide)⟩

end WiFiCompass
